import Mathlib

/-!
# A shallow embedding of the Falcon-like line interpreter (`src/main.go`)

The interpreter keeps three process-wide maps (`mutables`, `constants`,
`functions`) and walks a slice of source lines through a shared cursor.
Here the maps are association lists, the cursor is threaded explicitly, and
every loop that the Go code may spin in forever is driven by a fuel counter.
A Go runtime panic (failed type assertion, index or slice bound out of range)
is the result `Res.panic`; running out of fuel is `Res.timeout`.
-/

namespace Falcon

/-! ## Values, results, state -/

/-- Bit pattern of a Go `float64`. -/
structure F64 where
  bits : Nat
deriving DecidableEq, Repr

/-- The Go struct `Function`: parameter names and body lines. -/
structure Function where
  params : List String
  body : List String
deriving DecidableEq, Repr

/-- The dynamic values that the Go code stores behind `interface{}`: `int`,
`float64`, `string`, and the method table `map[string]Function` that `class`
puts into `mutables`. -/
inductive Value where
  | int (n : Int)
  | float (f : F64)
  | str (s : String)
  | methods (m : List (String × Function))
deriving DecidableEq, Repr

/-- Outcome of running a piece of the interpreter. -/
inductive Res (α : Type) where
  | ok (a : α)
  | panic
  | timeout
deriving DecidableEq, Repr

/-- Sequencing of outcomes: a panic or a timeout ends the run. -/
def Res.bind {α β : Type} (r : Res α) (f : α → Res β) : Res β :=
  match r with
  | .ok a => f a
  | .panic => .panic
  | .timeout => .timeout

/-- The parts of the Go standard library and of the operating system that the
interpreter calls and that are not part of the repository. -/
structure Host where
  /-- The function `strconv.ParseFloat(s, 64)`, `none` on error. -/
  parseFloat : String → Option F64
  /-- The text `fmt.Sprint` gives for a `float64`. -/
  formatFloat : F64 → String
  /-- The text `fmt.Sprint` gives for a method table. -/
  formatMethods : List (String × Function) → String
  /-- Opening a path and scanning its lines: the lines, or the error text. -/
  readFile : String → Except String (List String)

/-- The interpreter state: the three global maps of `main.go`, the unread
lines of standard input and the chunks written to standard output. -/
structure State where
  mutables : List (String × Value)
  constants : List (String × Value)
  functions : List (String × Function)
  stdin : List String
  out : List String
deriving DecidableEq, Repr

/-- Map lookup `m[k]` with the `ok` flag. -/
def mapGet {α : Type} : List (String × α) → String → Option α
  | [], _ => none
  | (k', v) :: rest, k => if k' = k then some v else mapGet rest k

/-- Map store `m[k] = v`: an existing key keeps its place, a new key is added. -/
def mapSet {α : Type} : List (String × α) → String → α → List (String × α)
  | [], k, v => [(k, v)]
  | (k', v') :: rest, k, v =>
    if k' = k then (k', v) :: rest else (k', v') :: mapSet rest k v

/-- The call `fmt.Println(text)`. -/
def println (s : State) (text : String) : State :=
  { s with out := s.out ++ [text ++ "\n"] }

/-! ## Strings -/

/-- The predicate `unicode.IsSpace`. -/
def isSpace (c : Char) : Bool :=
  let n := c.toNat
  n = 0x20 || (0x09 ≤ n && n ≤ 0x0d) || n = 0x85 || n = 0xa0 || n = 0x1680 ||
  (0x2000 ≤ n && n ≤ 0x200a) || n = 0x2028 || n = 0x2029 || n = 0x202f ||
  n = 0x205f || n = 0x3000

/-- The function `strings.TrimSpace` on a character list. -/
def trimSpace (cs : List Char) : List Char :=
  ((cs.dropWhile isSpace).reverse.dropWhile isSpace).reverse

/-- The function `strings.Fields`: `cur` is the field being read. -/
def fields : List Char → List Char → List String
  | [], cur => if cur = [] then [] else [String.mk cur]
  | c :: cs, cur =>
    if isSpace c then
      (if cur = [] then fields cs [] else String.mk cur :: fields cs [])
    else fields cs (cur ++ [c])

/-- The function `tokenize`: trim, then split on white space. -/
def tokenize (line : String) : List String :=
  let l := trimSpace line.data
  if l = [] then [] else fields l []

/-- The test `strings.HasPrefix(s, "\"") && strings.HasSuffix(s, "\"")`. -/
def quoted (cs : List Char) : Bool :=
  cs.head? = some '"' && cs.getLast? = some '"'

/-- The slice `s[1 : len(s)-1]` taken when `quoted s`: it panics for the
one-character text, where the bounds are `[1:0]`. -/
def stripQuotes (cs : List Char) : Res (List Char) :=
  if cs.length < 2 then .panic else .ok (cs.drop 1).dropLast

/-- Decimal digits read left to right onto `acc`. -/
def parseDigits : List Char → Nat → Option Nat
  | [], acc => some acc
  | c :: cs, acc =>
    if c.isDigit then parseDigits cs (acc * 10 + (c.toNat - 48)) else none

/-- The function `strconv.Atoi` on a 64-bit platform: an optional sign, at
least one decimal digit, and a value in the `int64` range. -/
def atoi (cs : List Char) : Option Int :=
  match cs with
  | [] => none
  | c :: ds =>
    if c = '-' then
      (if ds = [] then none else
        (parseDigits ds 0).bind fun n =>
          if n ≤ 2 ^ 63 then some (-(n : Int)) else none)
    else if c = '+' then
      (if ds = [] then none else
        (parseDigits ds 0).bind fun n =>
          if n < 2 ^ 63 then some (n : Int) else none)
    else
      (parseDigits (c :: ds) 0).bind fun n =>
        if n < 2 ^ 63 then some (n : Int) else none

/-- Go `int` arithmetic wraps around at 64 bits. -/
def wrap64 (n : Int) : Int :=
  (n + 2 ^ 63) % 2 ^ 64 - 2 ^ 63

/-! ## Expression evaluation -/

/-- The function `evalExpr`. -/
def evalExpr (h : Host) (s : State) (expr : String) : Res Value :=
  let e := trimSpace expr.data
  if quoted e then
    (stripQuotes e).bind fun inner => .ok (.str (String.mk inner))
  else
    match mapGet s.mutables (String.mk e) with
    | some v => .ok v
    | none =>
      match mapGet s.constants (String.mk e) with
      | some v => .ok v
      | none =>
        match atoi e with
        | some i => .ok (.int i)
        | none =>
          match h.parseFloat (String.mk e) with
          | some f => .ok (.float f)
          | none => .ok (.str (String.mk e))

/-- The type assertion `evalExpr(expr).(int)`. -/
def evalInt (h : Host) (s : State) (expr : String) : Res Int :=
  (evalExpr h s expr).bind fun v =>
    match v with
    | .int n => .ok n
    | _ => .panic

/-! ## String helpers of the statement dispatcher -/

/-- The call `strings.Join(toks, " ")`. -/
def joinSp : List String → List Char
  | [] => []
  | [t] => t.data
  | t :: u :: rest => t.data ++ ' ' :: joinSp (u :: rest)

/-- The call `strings.Trim(s, "\"")`: all leading and trailing quotes go. -/
def trimQuotes (cs : List Char) : List Char :=
  ((cs.dropWhile (· = '"')).reverse.dropWhile (· = '"')).reverse

/-- The call `strings.ReplaceAll(s, old, new)` for a two-character `old`
(a backslash followed by `code`) and a one-character `new`. -/
def unescape (code repl : Char) : List Char → List Char
  | [] => []
  | [c] => [c]
  | c :: d :: rest =>
    if c = '\\' ∧ d = code then repl :: unescape code repl rest
    else c :: unescape code repl (d :: rest)

/-- The character class `[a-zA-Z_]`. -/
def isIdentStart (c : Char) : Bool := c.isAlpha || c = '_'

/-- The character class `[a-zA-Z0-9_]`. -/
def isIdentChar (c : Char) : Bool := c.isAlphanum || c = '_'

/-- A match of the regular expression of `interpolate` at the head of the
text: a dollar sign, an opening brace, an identifier, a closing brace. The
identifier is returned. -/
def placeholderAt : List Char → Option (List Char)
  | a :: b :: c :: rest =>
    if a = '$' ∧ b = '\x7b' ∧ isIdentStart c = true ∧
        (rest.dropWhile isIdentChar).head? = some '\x7d' then
      some (c :: rest.takeWhile isIdentChar)
    else none
  | _ => none

/-- The text `fmt.Sprint(val)`. -/
def sprint (h : Host) : Value → String
  | .int n => toString n
  | .float f => h.formatFloat f
  | .str s => s
  | .methods m => h.formatMethods m

/-- The replacement callback of `interpolate`: the value of the name in
`mutables`, else in `constants`, else the empty text. -/
def lookupText (h : Host) (s : State) (name : String) : List Char :=
  match mapGet s.mutables name with
  | some v => (sprint h v).data
  | none =>
    match mapGet s.constants name with
    | some v => (sprint h v).data
    | none => []

/-- The scan of `ReplaceAllStringFunc`: leftmost matches, left to right,
never overlapping. `skip` counts the characters of the current match that are
still to be dropped. -/
def interpGo (h : Host) (s : State) : Nat → List Char → List Char
  | _, [] => []
  | k + 1, _ :: cs => interpGo h s k cs
  | 0, c :: cs =>
    match placeholderAt (c :: cs) with
    | some name => lookupText h s (String.mk name) ++ interpGo h s (name.length + 2) cs
    | none => c :: interpGo h s 0 cs

/-- The function `interpolate`. -/
def interpolate (h : Host) (s : State) (text : List Char) : List Char :=
  interpGo h s 0 text

/-- Parameter lists drop the separator tokens `:` and `,`. -/
def filterParams (ps : List String) : List String :=
  ps.filter fun p => p ≠ ":" ∧ p ≠ ","

/-- The skip loop `for *index < len(lines) && tokenize(lines[*index])[0] != "end"`
over the lines from the cursor on: indexing the tokens of a blank line panics. -/
def skipToEndAux : List String → Nat → Res Nat
  | [], idx => .ok idx
  | l :: rest, idx =>
    match tokenize l with
    | [] => .panic
    | t :: _ => if t = "end" then .ok idx else skipToEndAux rest (idx + 1)

/-- The skip loop started at the cursor `idx`. -/
def skipToEnd (lines : List String) (idx : Nat) : Res Nat :=
  skipToEndAux (lines.drop idx) idx

/-- The body collection loop of `func`: lines up to the first one whose first
token is `end`. -/
def collectBody : List String → Nat → List String → Res (Nat × List String)
  | [], idx, body => .ok (idx, body)
  | l :: rest, idx, body =>
    match tokenize l with
    | [] => .panic
    | t :: _ =>
      if t = "end" then .ok (idx, body) else collectBody rest (idx + 1) (body ++ [l])

/-- The inner scan of a non-matching `case`: it stops at the first line from
the cursor on that starts with `case`, `default` or `end`. -/
def skipToClause : List String → Nat → Nat
  | [], idx => idx
  | l :: rest, idx =>
    match tokenize l with
    | [] => skipToClause rest (idx + 1)
    | t :: _ =>
      if t = "case" ∨ t = "default" ∨ t = "end" then idx
      else skipToClause rest (idx + 1)

/-- IEEE equality of two `float64` bit patterns: a NaN equals nothing, the
two zeros are equal. -/
def F64.eq (a b : F64) : Bool :=
  let nan (x : Nat) : Bool := (x / 2 ^ 52) % 2 ^ 11 = 2 ^ 11 - 1 && x % 2 ^ 52 ≠ 0
  !nan a.bits && !nan b.bits &&
    (a.bits = b.bits || (a.bits % 2 ^ 63 = 0 && b.bits % 2 ^ 63 = 0))

/-- The comparison `a == b` of two interface values: different dynamic types
are unequal, two maps cannot be compared and panic. -/
def valEq : Value → Value → Res Bool
  | .int a, .int b => .ok (a = b)
  | .float a, .float b => .ok (F64.eq a b)
  | .str a, .str b => .ok (a = b)
  | .methods _, .methods _ => .panic
  | _, _ => .ok false

/-! ## The statement dispatcher

One pass of the loop of `execBlock` runs the `if cmd == ...` blocks of the
source one after the other; each block is a definition `sec...` below, in the
order of the source. `rec` stands for the recursive call of `execBlock`. -/

/-- The type of `execBlock`: lines, cursor and state to final cursor and state. -/
abbrev Exec := List String → Nat → State → Res (Nat × State)

/-- The `print` block (lines 83 to 92). -/
def secPrint (h : Host) (tokens : List String) (s : State) : Res State :=
  match tokens with
  | [] => .ok s
  | cmd :: args =>
    if cmd = "print" then
      let text := joinSp args
      (if quoted text then stripQuotes text else .ok text).bind fun text =>
        let out := interpolate h s text
        let out := unescape 'n' '\n' out
        let out := unescape 't' '\t' out
        .ok (println s (String.mk out))
    else .ok s

/-- The `let` block (lines 95 to 97). -/
def secLet (h : Host) (tokens : List String) (s : State) : Res State :=
  match tokens with
  | cmd :: name :: eq :: e :: _ =>
    if cmd = "let" ∧ eq = "=" then
      (evalExpr h s e).bind fun v =>
        .ok { s with mutables := mapSet s.mutables name v }
    else .ok s
  | _ => .ok s

/-- The `const` block (lines 98 to 100). -/
def secConst (h : Host) (tokens : List String) (s : State) : Res State :=
  match tokens with
  | cmd :: name :: eq :: e :: _ =>
    if cmd = "const" ∧ eq = "=" then
      (evalExpr h s e).bind fun v =>
        .ok { s with constants := mapSet s.constants name v }
    else .ok s
  | _ => .ok s

/-- The `input` block (lines 103 to 122). Standard input is a list of lines,
one is consumed per statement; at end of input the text read is empty. -/
def secInput (h : Host) (tokens : List String) (s : State) : Res State :=
  match tokens with
  | cmd :: varName :: p :: ps =>
    if cmd = "input" then
      let prompt := joinSp (p :: ps)
      (if quoted prompt then stripQuotes prompt else .ok prompt).bind fun prompt =>
        let text := trimSpace (s.stdin.headD "").data
        let v : Value :=
          match atoi text with
          | some i => .int i
          | none =>
            match h.parseFloat (String.mk text) with
            | some f => .float f
            | none => .str (String.mk text)
        .ok { s with out := s.out ++ [String.mk prompt], stdin := s.stdin.tail,
                     mutables := mapSet s.mutables varName v }
    else .ok s
  | _ => .ok s

/-- The method scan of `class` (lines 127 to 148). -/
def classLoop (lines : List String) :
    Nat → Nat → List (String × Function) → Res (Nat × List (String × Function))
  | 0, _, _ => .timeout
  | fuel + 1, idx, methods =>
    match lines[idx]? with
    | none => .ok (idx, methods)
    | some l =>
      match tokenize l with
      | [] => .panic
      | t :: args =>
        if t = "end" then .ok (idx, methods)
        else if t = "func" then
          match args with
          | [] => .panic
          | mName :: ps =>
            (collectBody (lines.drop (idx + 1)) (idx + 1) []).bind fun r =>
              classLoop lines fuel (r.1 + 1)
                (mapSet methods mName ⟨filterParams ps, r.2⟩)
        else classLoop lines fuel (idx + 1) methods

/-- The `class` block (lines 123 to 151). -/
def secClass (fuel : Nat) (lines : List String) (idx : Nat) (tokens : List String)
    (s : State) : Res (Nat × State) :=
  match tokens with
  | [] => .ok (idx, s)
  | cmd :: args =>
    if cmd = "class" then
      match args with
      | [] => .panic
      | className :: _ =>
        (classLoop lines fuel (idx + 1) []).bind fun r =>
          .ok (r.1,
            { s with
              functions := mapSet s.functions ("__class_" ++ className) ⟨[], []⟩,
              mutables := mapSet s.mutables ("__methods_" ++ className) (.methods r.2) })
    else .ok (idx, s)

/-- The type assertion `mutables["__methods_"+className].(map[string]Function)`. -/
def methodsOf (s : State) (className : String) : Res (List (String × Function)) :=
  match mapGet s.mutables ("__methods_" ++ className) with
  | some (.methods m) => .ok m
  | _ => .panic

/-- The loop `mutables["self_"+p] = evalExpr(args[i])` of `new`. -/
def bindSelf (h : Host) : List String → List String → State → Res State
  | [], _, s => .ok s
  | _ :: _, [], _ => .panic
  | p :: ps, a :: as, s =>
    (evalExpr h s a).bind fun v =>
      bindSelf h ps as { s with mutables := mapSet s.mutables ("self_" ++ p) v }

/-- The `new` block (lines 154 to 175). -/
def secNew (h : Host) (rec : Exec) (tokens : List String) (s : State) : Res State :=
  match tokens with
  | cmd :: className :: args =>
    if cmd = "new" then
      let instName := "obj" ++ className ++ toString s.mutables.length
      let s1 := { s with mutables := mapSet s.mutables instName (.str className) }
      (methodsOf s1 className).bind fun methods =>
        (match mapGet methods "init" with
          | some initFunc =>
            let backup := s1.mutables
            (bindSelf h initFunc.params args s1).bind fun s2 =>
              (rec initFunc.body 0 s2).bind fun r =>
                .ok { r.2 with mutables := backup }
          | none => .ok s1).bind fun s3 =>
        .ok { s3 with mutables := mapSet s3.mutables "last_instance" (.str instName) }
    else .ok s
  | _ => .ok s

/-- The method call block (lines 178 to 194): it runs for every first token
that contains an underscore. -/
def secMethodCall (rec : Exec) (tokens : List String) (s : State) : Res State :=
  match tokens with
  | [] => .ok s
  | cmd :: _ =>
    if '_' ∈ cmd.data then
      let inst := String.mk (cmd.data.takeWhile (· ≠ '_'))
      let method := String.mk ((cmd.data.dropWhile (· ≠ '_')).drop 1)
      match mapGet s.mutables inst with
      | some (.str className) =>
        (methodsOf s className).bind fun methods =>
          match mapGet methods method with
          | some fn =>
            let backup := s.mutables
            (rec fn.body 0 s).bind fun r => .ok { r.2 with mutables := backup }
          | none => .ok s
      | _ => .panic
    else .ok s

/-- The `sleep` block (lines 196 to 204); the pause itself leaves no trace. -/
def secSleep (h : Host) (tokens : List String) (s : State) : State :=
  match tokens with
  | cmd :: secs :: _ =>
    if cmd = "sleep" then
      match h.parseFloat secs with
      | some _ => s
      | none => println s "Invalid sleep time"
    else s
  | _ => s

/-- The sibling scan of a false `if` (lines 213 to 231), over the lines from
the cursor on. -/
def ifScan (h : Host) (rec : Exec) (lines : List String) :
    List String → Nat → State → Res (Nat × State)
  | [], idx, s => .ok (idx, s)
  | l :: rest, idx, s =>
    match tokenize l with
    | [] => ifScan h rec lines rest (idx + 1) s
    | t :: args =>
      if t = "elif" then
        match args with
        | [] => .panic
        | c :: _ =>
          (evalInt h s c).bind fun cond2 =>
            if cond2 ≠ 0 then rec lines (idx + 1) s
            else ifScan h rec lines rest (idx + 1) s
      else if t = "else" then rec lines (idx + 1) s
      else if t = "end" then .ok (idx, s)
      else ifScan h rec lines rest (idx + 1) s

/-- The `if` block (lines 207 to 233). -/
def secIf (h : Host) (rec : Exec) (lines : List String) (idx : Nat)
    (tokens : List String) (s : State) : Res (Nat × State) :=
  match tokens with
  | [] => .ok (idx, s)
  | cmd :: args =>
    if cmd = "if" then
      match args with
      | [] => .panic
      | c :: _ =>
        (evalInt h s c).bind fun cond =>
          if cond ≠ 0 then rec lines (idx + 1) s
          else ifScan h rec lines (lines.drop (idx + 1)) (idx + 1) s
    else .ok (idx, s)

/-- The clause scan of `switch` (lines 240 to 265); `matched` is the latch
`match` of the source. -/
def switchLoop (h : Host) (rec : Exec) (lines : List String) (switchVal : Value) :
    Nat → Bool → Nat → State → Res (Nat × State)
  | 0, _, _, _ => .timeout
  | fuel + 1, matched, idx, s =>
    match lines[idx]? with
    | none => .ok (idx, s)
    | some l =>
      match tokenize l with
      | [] => switchLoop h rec lines switchVal fuel matched (idx + 1) s
      | t :: args =>
        if t = "case" then
          match args with
          | [] => .panic
          | cv :: _ =>
            (evalExpr h s cv).bind fun caseVal =>
              (valEq caseVal switchVal).bind fun same =>
                if same || matched then
                  (rec lines (idx + 1) s).bind fun r =>
                    switchLoop h rec lines switchVal fuel true r.1 r.2
                else
                  switchLoop h rec lines switchVal fuel matched
                    (skipToClause (lines.drop idx) idx) s
        else if t = "default" then
          (rec lines (idx + 1) s).bind fun r =>
            switchLoop h rec lines switchVal fuel matched r.1 r.2
        else if t = "end" then .ok (idx, s)
        else switchLoop h rec lines switchVal fuel matched (idx + 1) s

/-- The `switch` block (lines 236 to 266). -/
def secSwitch (h : Host) (rec : Exec) (fuel : Nat) (lines : List String) (idx : Nat)
    (tokens : List String) (s : State) : Res (Nat × State) :=
  match tokens with
  | [] => .ok (idx, s)
  | cmd :: args =>
    if cmd = "switch" then
      match args with
      | [] => .panic
      | e :: _ =>
        (evalExpr h s e).bind fun switchVal =>
          switchLoop h rec lines switchVal fuel false (idx + 1) s
    else .ok (idx, s)

/-- The counting loop `for i := start; i <= end; i++` of `for` (lines 272 to
276); the increment wraps around like a Go `int`. -/
def forLoop (rec : Exec) (lines : List String) (idx : Nat) (var : String) (stop : Int) :
    Nat → Int → State → Res State
  | 0, _, _ => .timeout
  | fuel + 1, i, s =>
    if i ≤ stop then
      (rec lines (idx + 1) { s with mutables := mapSet s.mutables var (.int i) }).bind
        fun r => forLoop rec lines idx var stop fuel (wrap64 (i + 1)) r.2
    else .ok s

/-- The `for` block (lines 269 to 280). -/
def secFor (h : Host) (rec : Exec) (fuel : Nat) (lines : List String) (idx : Nat)
    (tokens : List String) (s : State) : Res (Nat × State) :=
  match tokens with
  | cmd :: var :: eq :: a :: kw :: b :: _ =>
    if cmd = "for" ∧ eq = "=" ∧ kw = "to" then
      (evalInt h s a).bind fun start =>
        (evalInt h s b).bind fun stop =>
          (forLoop rec lines idx var stop fuel start s).bind fun s1 =>
            (skipToEnd lines idx).bind fun idx1 => .ok (idx1, s1)
    else .ok (idx, s)
  | _ => .ok (idx, s)

/-- The counting loop `for i := 0; i < count; i++` of `repeat` (lines 288 to
291), by the number of passes left. -/
def repeatLoop (rec : Exec) (lines : List String) (idx : Nat) : Nat → State → Res State
  | 0, s => .ok s
  | n + 1, s =>
    (rec lines (idx + 1) s).bind fun r => repeatLoop rec lines idx n r.2

/-- The `repeat` block (lines 283 to 296). -/
def secRepeat (rec : Exec) (lines : List String) (idx : Nat) (tokens : List String)
    (s : State) : Res (Nat × State) :=
  match tokens with
  | cmd :: n :: _ =>
    if cmd = "repeat" then
      (match atoi n.data with
        | none => Res.ok (println s ("Invalid repeat count: " ++ n))
        | some count => repeatLoop rec lines idx count.toNat s).bind fun s1 =>
      (skipToEnd lines idx).bind fun idx1 => .ok (idx1, s1)
    else .ok (idx, s)
  | _ => .ok (idx, s)

/-- The loop of `while` (lines 301 to 304). -/
def whileLoop (h : Host) (rec : Exec) (lines : List String) (idx : Nat) (condExpr : String) :
    Nat → State → Res State
  | 0, _ => .timeout
  | fuel + 1, s =>
    (evalInt h s condExpr).bind fun c =>
      if c ≠ 0 then
        (rec lines (idx + 1) s).bind fun r =>
          whileLoop h rec lines idx condExpr fuel r.2
      else .ok s

/-- The `while` block (lines 299 to 308). -/
def secWhile (h : Host) (rec : Exec) (fuel : Nat) (lines : List String) (idx : Nat)
    (tokens : List String) (s : State) : Res (Nat × State) :=
  match tokens with
  | cmd :: condExpr :: _ =>
    if cmd = "while" then
      (whileLoop h rec lines idx condExpr fuel s).bind fun s1 =>
        (skipToEnd lines idx).bind fun idx1 => .ok (idx1, s1)
    else .ok (idx, s)
  | _ => .ok (idx, s)

/-- The loop of `loopuntil` (lines 313 to 319): body first, test after. -/
def untilLoop (h : Host) (rec : Exec) (lines : List String) (idx : Nat) (condExpr : String) :
    Nat → State → Res State
  | 0, _ => .timeout
  | fuel + 1, s =>
    (rec lines (idx + 1) s).bind fun r =>
      (evalInt h r.2 condExpr).bind fun c =>
        if c ≠ 0 then .ok r.2
        else untilLoop h rec lines idx condExpr fuel r.2

/-- The `loopuntil` block (lines 311 to 323). -/
def secLoopUntil (h : Host) (rec : Exec) (fuel : Nat) (lines : List String) (idx : Nat)
    (tokens : List String) (s : State) : Res (Nat × State) :=
  match tokens with
  | cmd :: condExpr :: _ =>
    if cmd = "loopuntil" then
      (untilLoop h rec lines idx condExpr fuel s).bind fun s1 =>
        (skipToEnd lines idx).bind fun idx1 => .ok (idx1, s1)
    else .ok (idx, s)
  | _ => .ok (idx, s)

/-- The `func` block (lines 326 to 343). -/
def secFunc (lines : List String) (idx : Nat) (tokens : List String) (s : State) :
    Res (Nat × State) :=
  match tokens with
  | [] => .ok (idx, s)
  | cmd :: args =>
    if cmd = "func" then
      match args with
      | [] => .panic
      | name :: ps =>
        (collectBody (lines.drop (idx + 1)) (idx + 1) []).bind fun r =>
          .ok (r.1, { s with
            functions := mapSet s.functions name ⟨filterParams ps, r.2⟩ })
    else .ok (idx, s)

/-- The loop `args = append(args, evalExpr(arg))` of a call. -/
def evalArgs (h : Host) (s : State) : List String → Res (List Value)
  | [] => .ok []
  | a :: as =>
    (evalExpr h s a).bind fun v => (evalArgs h s as).bind fun vs => .ok (v :: vs)

/-- The loop `mutables[p] = args[i]` of a call: a parameter without an
argument indexes past the end of `args`. -/
def bindParams : List String → List Value → List (String × Value) →
    Res (List (String × Value))
  | [], _, m => .ok m
  | _ :: _, [], _ => .panic
  | p :: ps, v :: vs, m => bindParams ps vs (mapSet m p v)

/-- The function call block (lines 346 to 361). -/
def secCall (h : Host) (rec : Exec) (tokens : List String) (s : State) : Res State :=
  match tokens with
  | [] => .ok s
  | cmd :: rest =>
    match mapGet s.functions cmd with
    | some fn =>
      (evalArgs h s rest).bind fun args =>
        let backup := s.mutables
        (bindParams fn.params args s.mutables).bind fun m =>
          (rec fn.body 0 { s with mutables := m }).bind fun r =>
            .ok { r.2 with mutables := backup }
    | none => .ok s

/-- The `include` block (lines 364 to 388) followed by the closing `*index++`
of the loop body. The map `includedFiles` is declared inside the loop body, so
every pass starts with an empty one. -/
def secInclude (h : Host) (rec : Exec) (idx : Nat) (tokens : List String) (s : State) :
    Res (Nat × State) :=
  let includedFiles : List String := []
  match tokens with
  | cmd :: path :: _ =>
    if cmd = "include" then
      let filePath := String.mk (trimQuotes path.data)
      if filePath ∈ includedFiles then .ok (idx + 1, s)
      else
        match h.readFile filePath with
        | .error err => .ok (idx + 1, println s ("Include error: " ++ err))
        | .ok includeLines =>
          (rec includeLines 0 s).bind fun r => .ok (idx + 1, r.2)
    else .ok (idx + 1, s)
  | _ => .ok (idx + 1, s)

/-- One pass of the loop body of `execBlock` for a line with tokens whose
first token is not `end`: all blocks in source order. -/
def execLine (h : Host) (rec : Exec) (fuel : Nat) (lines : List String) (idx : Nat)
    (tokens : List String) (s : State) : Res (Nat × State) :=
  (secPrint h tokens s).bind fun s =>
  (secLet h tokens s).bind fun s =>
  (secConst h tokens s).bind fun s =>
  (secInput h tokens s).bind fun s =>
  (secClass fuel lines idx tokens s).bind fun r =>
  (secNew h rec tokens r.2).bind fun s =>
  (secMethodCall rec tokens s).bind fun s =>
  (secIf h rec lines r.1 tokens (secSleep h tokens s)).bind fun r =>
  (secSwitch h rec fuel lines r.1 tokens r.2).bind fun r =>
  (secFor h rec fuel lines r.1 tokens r.2).bind fun r =>
  (secRepeat rec lines r.1 tokens r.2).bind fun r =>
  (secWhile h rec fuel lines r.1 tokens r.2).bind fun r =>
  (secLoopUntil h rec fuel lines r.1 tokens r.2).bind fun r =>
  (secFunc lines r.1 tokens r.2).bind fun r =>
  (secCall h rec tokens r.2).bind fun s =>
  secInclude h rec r.1 tokens s

/-- The function `execBlock`: the cursor walks the lines until it meets a
line whose first token is `end` or runs past the last line. -/
def execBlock (h : Host) : Nat → List String → Nat → State → Res (Nat × State)
  | 0, _, _, _ => .timeout
  | fuel + 1, lines, idx, s =>
    match lines[idx]? with
    | none => .ok (idx, s)
    | some line =>
      match tokenize line with
      | [] => execBlock h fuel lines (idx + 1) s
      | cmd :: args =>
        if cmd = "end" then .ok (idx, s)
        else
          (execLine h (execBlock h fuel) fuel lines idx (cmd :: args) s).bind fun r =>
            execBlock h fuel lines r.1 r.2

/-- The state at program start: all maps empty. -/
def State.init (stdin : List String) : State :=
  { mutables := [], constants := [], functions := [], stdin := stdin, out := [] }

/-- The function `execute`: run a program from its first line, give the
final state. -/
def execute (h : Host) (fuel : Nat) (lines : List String) (s : State) : Res State :=
  (execBlock h fuel lines 0 s).bind fun r => .ok r.2

/-- A host without floats and with three files: `lib.fal` prints once,
`self.fal` includes itself. -/
def demoHost : Host where
  parseFloat := fun _ => none
  formatFloat := fun _ => ""
  formatMethods := fun _ => ""
  readFile := fun p =>
    if p = "lib.fal" then .ok ["print \"lib\""]
    else if p = "self.fal" then .ok ["print \"self\"", "include \"self.fal\""]
    else .error ("open " ++ p ++ ": no such file or directory")

/-! ## Plain lines and their meaning -/

/-- The first tokens that make a line more than a plain statement: the block
keywords, `new` and `include`. -/
def blockWords : List String :=
  ["end", "class", "new", "if", "switch", "for", "repeat", "while", "loopuntil",
   "func", "include"]

/-- A plain line: its first token is no block keyword, has no underscore and
names no registered function. Only the `print`, `let`, `const`, `input` and
`sleep` blocks can act on it. -/
def plain (fns : List (String × Function)) (tokens : List String) : Bool :=
  match tokens with
  | [] => false
  | cmd :: _ =>
    decide (cmd ∉ blockWords) && decide ('_' ∉ cmd.data) && (mapGet fns cmd).isNone

/-- What the dispatcher does to the state on a plain line: the `print`, `let`,
`const`, `input` and `sleep` blocks in source order. -/
def flatStep (h : Host) (tokens : List String) (s : State) : Res State :=
  (secPrint h tokens s).bind fun s =>
  (secLet h tokens s).bind fun s =>
  (secConst h tokens s).bind fun s =>
  (secInput h tokens s).bind fun s =>
  .ok (secSleep h tokens s)

/-- Running a list of plain lines one after the other. -/
def runFlat (h : Host) : List String → State → Res State
  | [], s => .ok s
  | l :: ls, s => (flatStep h (tokenize l) s).bind (runFlat h ls)

/-! ## Statement lines and flat bodies -/

/-- The first tokens on which the main loop stops or enters a block of lines:
`end` and the block keywords. -/
def nestWords : List String :=
  ["end", "class", "if", "switch", "for", "repeat", "while", "loopuntil", "func"]

/-- A line the main loop passes as one statement: a line without tokens, or a
line whose first token is neither `end` nor a block keyword. -/
def walkLine (l : String) : Bool :=
  match tokenize l with
  | [] => true
  | cmd :: _ => decide (cmd ∉ nestWords)

/-- A statement line: it has tokens and its first token is neither `end` nor
a block keyword. Function calls, method calls, `new` and `include` lines are
statement lines, as `print` and `let` lines are. A body of statement lines is
a flat body: it holds no nested block. -/
def stmtLine (l : String) : Bool :=
  match tokenize l with
  | [] => false
  | cmd :: _ => decide (cmd ∉ nestWords)

/-- A line of a flat body inside a conditional chain: a statement line that is
no `elif` or `else` header, or a line without tokens. -/
def bodyLine (l : String) : Bool :=
  match tokenize l with
  | [] => true
  | cmd :: _ => decide (cmd ∉ nestWords) && decide (cmd ≠ "elif") && decide (cmd ≠ "else")

/-- What the `include` block does to the state, the cursor left out. -/
def includeStep (h : Host) (rec : Exec) (tokens : List String) (s : State) : Res State :=
  (secInclude h rec 0 tokens s).bind fun r => .ok r.2

/-- What one pass of the loop body does to the state on a line whose first
token is no block keyword: the `print`, `let`, `const`, `input`, `new`,
method call, `sleep`, function call and `include` blocks in source order. -/
def stmtStep (h : Host) (rec : Exec) (tokens : List String) (s : State) : Res State :=
  (secPrint h tokens s).bind fun s =>
  (secLet h tokens s).bind fun s =>
  (secConst h tokens s).bind fun s =>
  (secInput h tokens s).bind fun s =>
  (secNew h rec tokens s).bind fun s =>
  (secMethodCall rec tokens s).bind fun s =>
  (secCall h rec tokens (secSleep h tokens s)).bind fun s =>
  includeStep h rec tokens s

/-- One pass over the lines of a body, by a walk that has `fuel` steps at its
disposal: the statements act one after the other, each in the state the one
before it left; a line without tokens is passed over. Every line costs the
walk a step, and so does the stop at the end of the body; the walks that a
statement starts itself (a called function body, an included file) get the
steps the walk has left. -/
def runBody (h : Host) : Nat → List String → State → Res State
  | 0, _, _ => .timeout
  | _ + 1, [], s => .ok s
  | fuel + 1, l :: ls, s =>
    match tokenize l with
    | [] => runBody h fuel ls s
    | cmd :: args =>
      (stmtStep h (execBlock h fuel) (cmd :: args) s).bind (runBody h fuel ls)

/-! ## Conditional chains -/

/-- A clause of a conditional chain: the `elif` or `else` line and the lines
of its body. -/
structure Clause where
  header : String
  body : List String
deriving DecidableEq, Repr

/-- The condition token of a clause header, `tokens[1]`. -/
def Clause.cond (c : Clause) : String := (tokenize c.header).getD 1 ""

/-- The lines of a list of clauses, in source order. -/
def clauseLines : List Clause → List String
  | [] => []
  | c :: cs => c.header :: (c.body ++ clauseLines cs)

/-- The lines of an optional `else` clause. -/
def elseLines (els : Option Clause) : List String := clauseLines els.toList

/-- An `elif` header: the first token is `elif` and a condition follows. -/
def elifHeader (l : String) : Bool :=
  match tokenize l with
  | t :: _ :: _ => decide (t = "elif")
  | _ => false

/-- An `else` header: the first token is `else`. -/
def elseHeader (l : String) : Bool :=
  match tokenize l with
  | t :: _ => decide (t = "else")
  | [] => false

/-- An `elif` clause with a flat body. -/
def elifClause (c : Clause) : Bool := elifHeader c.header && c.body.all bodyLine

/-- An `else` clause with a flat body. -/
def elseClause (c : Clause) : Bool := elseHeader c.header && c.body.all bodyLine

/-- What a false `if` is to do with its clauses: the `elif` conditions are
evaluated in source order, each as an integer, in the state at the `if`; at
the first nonzero one the walk enters that clause: it runs the clause body
and goes on through the lines of the clauses below it, up to the `end`. When
every condition is zero the walk enters the `else` clause, if there is one;
with no `else` nothing is run. -/
def chainRun (h : Host) (fuel : Nat) (s : State) : List Clause → Option Clause → Res State
  | [], none => .ok s
  | [], some c => runBody h fuel c.body s
  | c :: cs, els =>
    (evalInt h s c.cond).bind fun v =>
      if v ≠ 0 then runBody h fuel (c.body ++ (clauseLines cs ++ elseLines els)) s
      else chainRun h fuel s cs els

/-- The program of the claim: `v` is 2, the cases are 1, 2 and 3. -/
def switchProg : List String :=
  ["let v = 2", "switch v", "case 1", "print \"one\"", "case 2", "print \"two\"",
   "case 3", "print \"three\"", "end", "print \"after\""]

/-- The program of claim C2: a true `if` with an `elif` and an `else`. -/
def ifTrueProg : List String :=
  ["if 1", "print \"then\"", "elif 1", "print \"elif\"", "else", "print \"else\"",
   "end", "print \"after\""]

/-- The function `hi` is defined; a false `if`, a false `elif`, a true `elif`
whose body holds an empty line and a call, and an `else`. -/
def ifFalseProg : List String :=
  ["func hi", "print \"hi\"", "end", "if 0", "print \"a\"", "elif 0", "print \"b\"", "elif 7",
   "print \"c\"", "", "hi", "else", "print \"d\"", "end", "print \"z\""]

/-! ## Function calls -/

/-- The first tokens of the simple statements. -/
def statementWords : List String := ["print", "let", "const", "input", "sleep"]

/-- A name that only the function call block can act on: no keyword of the
language and no underscore. -/
def callable (f : String) : Bool :=
  decide (f ∉ blockWords) && decide (f ∉ statementWords) && decide ('_' ∉ f.data)

/-- A global `x`, a function that assigns `x`, its parameter and a fresh
variable and calls a second function, and a call of it. -/
def scopeProg : List String :=
  ["let x = 1", "func g", "let x = 3", "let z = 4", "end", "func f p", "let x = 2",
   "let y = p", "g", "end", "f 5"]

/-- The state of `scopeProg` when the cursor reaches the call line `f 5`. -/
def scopeState : State :=
  { State.init [] with
    mutables := [("x", .int 1)],
    functions := [("g", ⟨[], ["let x = 3", "let z = 4"]⟩),
                  ("f", ⟨["p"], ["let x = 2", "let y = p", "g"]⟩)] }

/-! ## Loops -/

/-- What a `for` loop with a flat body is to do: `n` passes, the variable set
to `i`, `i + 1`, … at the start of the passes, each pass running the body
once. -/
def forSpec (h : Host) (fuel : Nat) (var : String) (body : List String) :
    Nat → Int → State → Res State
  | 0, _, s => .ok s
  | n + 1, i, s =>
    (runBody h fuel body { s with mutables := mapSet s.mutables var (.int i) }).bind
      (forSpec h fuel var body n (i + 1))

/-- What `repeat` with a flat body is to do: `n` passes of the body. -/
def repeatSpec (h : Host) (fuel : Nat) (body : List String) : Nat → State → Res State
  | 0, s => .ok s
  | n + 1, s => (runBody h fuel body s).bind (repeatSpec h fuel body n)

/-- A loop from the largest `int` to itself. -/
def forMaxProg : List String :=
  ["for i = 9223372036854775807 to 9223372036854775807", "print \"x\"", "end"]

/-- The function `hi` is defined; a loop from 1 to 2 whose body prints,
reassigns the loop variable and calls the function. -/
def forProg : List String :=
  ["func hi", "print \"hi\"", "end", "for i = 1 to 2", "print \"i=$\x7bi\x7d\"", "let i = 10",
   "hi", "end", "print \"z\""]

/-- The function `hi` is defined; two passes of a body that prints and calls
it. -/
def repeatProg : List String :=
  ["func hi", "print \"hi\"", "end", "repeat 2", "print \"x\"", "hi", "end", "print \"z\""]

/-- A repeat count that is no integer. -/
def repeatBadProg : List String := ["repeat many", "print \"x\"", "end", "print \"z\""]

/-- The function `hi` is defined; a `while` whose condition is zero at entry. -/
def whileProg : List String :=
  ["func hi", "print \"hi\"", "end", "while 0", "print \"x\"", "hi", "end", "print \"z\""]

/-- The function `hi` is defined; a `loopuntil` whose condition is nonzero at
entry. -/
def untilProg : List String :=
  ["func hi", "print \"hi\"", "end", "loopuntil 1", "print \"x\"", "hi", "end",
   "print \"z\""]

/-! ## Programs for `include` and `const` -/

/-- The same file included twice. -/
def includeTwiceProg : List String := ["include \"lib.fal\"", "include \"lib.fal\""]

/-- A file that includes itself is included. -/
def includeSelfProg : List String := ["include \"self.fal\""]

/-- The lines of `self.fal` under `demoHost`. -/
def selfLines : List String := ["print \"self\"", "include \"self.fal\""]

/-- Two `const` statements for the same name. -/
def constProg : List String := ["const x = 1", "const x = 2"]

/-! ## Expression rules in the words of the specification -/

/-- The five rules of the expression evaluator as the specification words
them, on the trimmed text: text of length at least 2 that starts and ends
with a double quote gives the inner text; otherwise a mutable binding; otherwise
a constant binding; otherwise the integer parse; otherwise the float parse;
otherwise the text itself. -/
def evalRules (h : Host) (s : State) (e : List Char) : Value :=
  if quoted e = true ∧ 2 ≤ e.length then .str (String.mk (e.drop 1).dropLast)
  else
    match mapGet s.mutables (String.mk e) with
    | some v => v
    | none =>
      match mapGet s.constants (String.mk e) with
      | some v => v
      | none =>
        match atoi e with
        | some i => .int i
        | none =>
          match h.parseFloat (String.mk e) with
          | some f => .float f
          | none => .str (String.mk e)

/-- A state in which the one-character name `"` is bound to 5, as the line
`let " = 5` leaves it. -/
def quoteBoundState : State :=
  { State.init [] with mutables := [("\"", .int 5)] }

/-- The name `"` is bound, then read. -/
def quoteBoundProg : List String := ["let \" = 5", "let y = \""]

/-- A state in which the name `5` is bound to 7, as the line `let 5 = 7`
leaves it. -/
def fiveBoundState : State :=
  { State.init [] with mutables := [("5", .int 7)] }

/-- The name `5` is bound, then read. -/
def fiveBoundProg : List String := ["let 5 = 7", "let y = 5"]

/-! ## Identifiers and placeholders -/

/-- An identifier: a letter or underscore followed by letters, digits and
underscores. -/
def isIdent (cs : List Char) : Bool :=
  match cs with
  | [] => false
  | c :: rest => isIdentStart c && rest.all isIdentChar

/-- The text of a placeholder for the name `name`: dollar sign, opening
brace, name, closing brace. -/
def placeholder (name : List Char) : List Char :=
  '$' :: '\x7b' :: (name ++ ['\x7d'])

/-- A text without placeholder: the regular expression of `interpolate`
matches at no position. -/
def noPlaceholder : List Char → Bool
  | [] => true
  | c :: cs => (placeholderAt (c :: cs)).isNone && noPlaceholder cs

/-- Two `let` statements for the same name. -/
def letProg : List String := ["let x = 5", "let x = \"five\"", "print \"$\x7bx\x7d\""]

/-- A state with a variable `name`, a variable `both` that is also a
constant, and a constant `pi`. -/
def worldState : State :=
  { State.init [] with
    mutables := [("name", .str "World"), ("both", .str "$\x7bname\x7d")],
    constants := [("both", .int 1), ("pi", .int 3)] }

/-! ## Programs for the scope of constants, instances and nested blocks -/

/-- A function whose body binds a constant, and a call of it. -/
def constCallProg : List String := ["func f", "const k = 9", "end", "f"]

/-- The state of `constCallProg` when the cursor reaches the call line. -/
def constCallState : State :=
  { State.init [] with functions := [("f", ⟨[], ["const k = 9"]⟩)] }

/-- A class, a variable named like the instance name that `new` will make,
and the `new` statement. -/
def newClashProg : List String := ["class C", "end", "let objC2 = 5", "new C"]

/-- Two classes `A` and `A1`, an instance of `A1` made when the mutable scope
has 2 entries, eight more variables, and an instance of `A` made when it has
12 entries. -/
def newInstanceClashProg : List String :=
  ["class A", "end", "class A1", "end", "new A1", "let v1 = 1", "let v2 = 1", "let v3 = 1",
   "let v4 = 1", "let v5 = 1", "let v6 = 1", "let v7 = 1", "let v8 = 1", "new A"]

/-- A function definition whose body holds an `if` block and a line after it. -/
def nestedFuncProg : List String :=
  ["func f a : b", "if 1", "print \"in\"", "end", "print \"tail\"", "end", "print \"after\""]

/-- A `for` loop whose body holds an `if` block and a line after it. -/
def nestedForProg : List String :=
  ["for i = 1 to 2", "if 1", "print \"a\"", "end", "print \"b\"", "end", "print \"after\""]

/-- The same body under `repeat 2`. -/
def nestedRepeatProg : List String :=
  ["repeat 2", "if 1", "print \"a\"", "end", "print \"b\"", "end", "print \"after\""]

/-- A `while` loop whose body ends its condition inside an `if` block. -/
def nestedWhileProg : List String :=
  ["let c = 1", "while c", "if 1", "let c = 0", "end", "print \"b\"", "end",
   "print \"after\""]

/-- The body with the `if` block under `loopuntil 1`. -/
def nestedUntilProg : List String :=
  ["loopuntil 1", "if 1", "print \"a\"", "end", "print \"b\"", "end", "print \"after\""]

/-- A `for` loop, without and with an empty line in its body. -/
def loopProg : List String := ["for i = 1 to 1", "print \"a\"", "end", "print \"z\""]

/-- The loop of `loopProg` with an empty line in its body. -/
def loopBlankProg : List String := ["for i = 1 to 1", "print \"a\"", "", "end", "print \"z\""]

/-- A function definition and a call. -/
def funcProg : List String := ["func f", "print \"a\"", "end", "f"]

/-- The definition of `funcProg` with a line of one space in its body. -/
def funcBlankProg : List String := ["func f", " ", "print \"a\"", "end", "f"]

/-- A class with one method. -/
def classProg : List String :=
  ["class C", "func hi", "print \"a\"", "end", "end", "print \"z\""]

/-- The class of `classProg` with an empty line in its body. -/
def classBlankProg : List String :=
  ["class C", "", "func hi", "print \"a\"", "end", "end", "print \"z\""]

/-- An empty line between two statements at top level. -/
def topBlankProg : List String := ["print \"a\"", "", "print \"z\""]

/-! ## Programs for the statements with a flat body -/

/-- A state in which the function `hi`, which prints a line, is registered. -/
def hiState : State :=
  { State.init [] with functions := [("hi", ⟨[], ["print \"hi\""]⟩)] }

/-- A function named `repeat` with two parameters, then a `repeat` loop. -/
def repeatFuncProg : List String :=
  ["func repeat a b", "end", "repeat 2", "print \"x\"", "end", "print \"z\""]

/-- A `repeat` loop with an empty line in its body. -/
def repeatBlankProg : List String := ["repeat 1", "print \"a\"", "", "end", "print \"z\""]

/-- A `repeat` loop whose body instantiates a class that does not exist. -/
def repeatNewProg : List String := ["repeat 1", "new X", "end", "print \"z\""]

/-- A function named `for` with six parameters, then a `for` loop. -/
def forFuncProg : List String :=
  ["func for a b c d e f", "end", "for i = 1 to 2", "print \"x\"", "end", "print \"z\""]

/-- A `for` loop whose body instantiates a class that does not exist. -/
def forNewProg : List String := ["for i = 1 to 1", "new X", "end", "print \"z\""]

/-- A function named `while` with two parameters, then a `while` loop. -/
def whileFuncProg : List String :=
  ["func while a b", "end", "while 0", "print \"x\"", "end", "print \"z\""]

/-- A function named `loopuntil` with two parameters, then a `loopuntil` loop. -/
def untilFuncProg : List String :=
  ["func loopuntil a b", "end", "loopuntil 1", "print \"x\"", "end", "print \"z\""]

/-- A `while` loop with an empty line in its body. -/
def whileBlankProg : List String := ["while 0", "print \"a\"", "", "end", "print \"z\""]

/-- A `loopuntil` loop whose body instantiates a class that does not exist. -/
def untilNewProg : List String := ["loopuntil 1", "new X", "end", "print \"z\""]

/-- A function named `if` with two parameters, then a false `if`. -/
def ifFuncProg : List String :=
  ["func if a b", "end", "if 0", "print \"a\"", "end", "print \"z\""]

/-- A false `if` followed by an `elif` whose condition is a text. -/
def ifTextElifProg : List String :=
  ["if 0", "print \"a\"", "elif abc", "print \"b\"", "end", "print \"z\""]

/-- A false `if` whose `else` body instantiates a class that does not exist. -/
def ifNewProg : List String :=
  ["if 0", "print \"a\"", "else", "new X", "end", "print \"z\""]

/-- A function named `const` with four parameters, then a `const` statement. -/
def constFuncProg : List String := ["func const a b c d", "end", "const x = 1"]

/-- A `const` statement whose expression is the one-character token `"`. -/
def constQuoteProg : List String := ["const x = \""]

/-- A function named `let` whose body binds a constant, then a `let`
statement. -/
def letFuncProg : List String := ["func let a b c", "const k = 1", "end", "let x = 5"]

/-- A function named `let` with four parameters, then a `let` statement. -/
def letFuncWideProg : List String := ["func let a b c d", "end", "let x = 5"]

/-- A `let` statement whose expression is the one-character token `"`. -/
def letQuoteProg : List String := ["let x = \""]

/-! ## Fuel -/

/-- The result `a` is confirmed by `b`: `a` ran out of fuel, or the two are
the same. -/
def Res.le {α : Type} (a b : Res α) : Prop := a = .timeout ∨ a = b

/-- The walk `rec'` confirms every result of the walk `rec`. -/
def ExecLe (rec rec' : Exec) : Prop :=
  ∀ lines idx s, (rec lines idx s).le (rec' lines idx s)

/-! ## Basic lemmas -/

@[simp] theorem Res.bind_ok {α β : Type} (a : α) (f : α → Res β) :
    (Res.ok a).bind f = f a := rfl

@[simp] theorem Res.bind_panic {α β : Type} (f : α → Res β) :
    (Res.panic : Res α).bind f = .panic := rfl

@[simp] theorem Res.bind_timeout {α β : Type} (f : α → Res β) :
    (Res.timeout : Res α).bind f = .timeout := rfl

theorem Res.bind_assoc {α β γ : Type} (r : Res α) (f : α → Res β) (g : β → Res γ) :
    (r.bind f).bind g = r.bind fun a => (f a).bind g := by
  cases r <;> rfl

theorem Res.bind_eq_ok {α β : Type} {r : Res α} {f : α → Res β} {b : β}
    (hb : r.bind f = .ok b) : ∃ a, r = .ok a ∧ f a = .ok b := by
  cases r with
  | ok a => exact ⟨a, rfl, hb⟩
  | panic => simp at hb
  | timeout => simp at hb

theorem drop_eq_cons {α : Type} {l : List α} {i : Nat} {a : α} {rest : List α}
    (hd : l.drop i = a :: rest) : l[i]? = some a ∧ l.drop (i + 1) = rest := by
  induction l generalizing i with
  | nil => simp at hd
  | cons x xs ih =>
    cases i with
    | zero => simp at hd; simp [hd.1, hd.2]
    | succ j => simp at hd; simpa using ih hd

theorem drop_append_shift {α : Type} {l : List α} {i : Nat} (a b : List α)
    (hd : l.drop i = a ++ b) : l.drop (i + a.length) = b := by
  rw [← List.drop_drop, hd, List.drop_left]

/-! ### Blocks that do not fire -/

theorem secPrint_skip (h : Host) (cmd : String) (args : List String) (s : State)
    (hc : cmd ≠ "print") : secPrint h (cmd :: args) s = .ok s := by
  simp [secPrint, hc]

theorem secLet_skip (h : Host) (cmd : String) (args : List String) (s : State)
    (hc : cmd ≠ "let") : secLet h (cmd :: args) s = .ok s := by
  unfold secLet; split <;> simp_all

theorem secConst_skip (h : Host) (cmd : String) (args : List String) (s : State)
    (hc : cmd ≠ "const") : secConst h (cmd :: args) s = .ok s := by
  unfold secConst; split <;> simp_all

theorem secInput_skip (h : Host) (cmd : String) (args : List String) (s : State)
    (hc : cmd ≠ "input") : secInput h (cmd :: args) s = .ok s := by
  unfold secInput; split <;> simp_all

theorem secSleep_skip (h : Host) (cmd : String) (args : List String) (s : State)
    (hc : cmd ≠ "sleep") : secSleep h (cmd :: args) s = s := by
  unfold secSleep; split <;> simp_all

theorem secClass_skip (fuel : Nat) (lines : List String) (idx : Nat) (cmd : String)
    (args : List String) (s : State) (hc : cmd ≠ "class") :
    secClass fuel lines idx (cmd :: args) s = .ok (idx, s) := by
  simp [secClass, hc]

theorem secNew_skip (h : Host) (rec : Exec) (cmd : String) (args : List String)
    (s : State) (hc : cmd ≠ "new") : secNew h rec (cmd :: args) s = .ok s := by
  unfold secNew; split <;> simp_all

theorem secMethodCall_skip (rec : Exec) (cmd : String) (args : List String)
    (s : State) (hc : '_' ∉ cmd.data) : secMethodCall rec (cmd :: args) s = .ok s := by
  simp [secMethodCall, hc]

theorem secIf_skip (h : Host) (rec : Exec) (lines : List String) (idx : Nat)
    (cmd : String) (args : List String) (s : State) (hc : cmd ≠ "if") :
    secIf h rec lines idx (cmd :: args) s = .ok (idx, s) := by
  simp [secIf, hc]

theorem secSwitch_skip (h : Host) (rec : Exec) (fuel : Nat) (lines : List String)
    (idx : Nat) (cmd : String) (args : List String) (s : State) (hc : cmd ≠ "switch") :
    secSwitch h rec fuel lines idx (cmd :: args) s = .ok (idx, s) := by
  simp [secSwitch, hc]

theorem secFor_skip (h : Host) (rec : Exec) (fuel : Nat) (lines : List String)
    (idx : Nat) (cmd : String) (args : List String) (s : State) (hc : cmd ≠ "for") :
    secFor h rec fuel lines idx (cmd :: args) s = .ok (idx, s) := by
  unfold secFor; split <;> simp_all

theorem secRepeat_skip (rec : Exec) (lines : List String)
    (idx : Nat) (cmd : String) (args : List String) (s : State) (hc : cmd ≠ "repeat") :
    secRepeat rec lines idx (cmd :: args) s = .ok (idx, s) := by
  unfold secRepeat; split <;> simp_all

theorem secWhile_skip (h : Host) (rec : Exec) (fuel : Nat) (lines : List String)
    (idx : Nat) (cmd : String) (args : List String) (s : State) (hc : cmd ≠ "while") :
    secWhile h rec fuel lines idx (cmd :: args) s = .ok (idx, s) := by
  unfold secWhile; split <;> simp_all

theorem secLoopUntil_skip (h : Host) (rec : Exec) (fuel : Nat) (lines : List String)
    (idx : Nat) (cmd : String) (args : List String) (s : State)
    (hc : cmd ≠ "loopuntil") :
    secLoopUntil h rec fuel lines idx (cmd :: args) s = .ok (idx, s) := by
  unfold secLoopUntil; split <;> simp_all

theorem secFunc_skip (lines : List String) (idx : Nat) (cmd : String)
    (args : List String) (s : State) (hc : cmd ≠ "func") :
    secFunc lines idx (cmd :: args) s = .ok (idx, s) := by
  simp [secFunc, hc]

theorem secCall_skip (h : Host) (rec : Exec) (cmd : String) (args : List String)
    (s : State) (hc : mapGet s.functions cmd = none) :
    secCall h rec (cmd :: args) s = .ok s := by
  simp [secCall, hc]

theorem secInclude_skip (h : Host) (rec : Exec) (idx : Nat) (cmd : String)
    (args : List String) (s : State) (hc : cmd ≠ "include") :
    secInclude h rec idx (cmd :: args) s = .ok (idx + 1, s) := by
  unfold secInclude; split <;> simp_all

/-! ### Plain lines -/

theorem plain_cons {fns : List (String × Function)} {cmd : String} {args : List String}
    (hp : plain fns (cmd :: args) = true) :
    cmd ∉ blockWords ∧ '_' ∉ cmd.data ∧ mapGet fns cmd = none := by
  simpa [plain, Option.isNone_iff_eq_none, and_assoc] using hp

theorem plain_tokens {fns : List (String × Function)} {tokens : List String}
    (hp : plain fns tokens = true) : ∃ cmd args, tokens = cmd :: args := by
  cases tokens with
  | nil => simp [plain] at hp
  | cons c a => exact ⟨c, a, rfl⟩

theorem secPrint_functions {h : Host} {tokens : List String} {s s' : State}
    (hr : secPrint h tokens s = .ok s') : s'.functions = s.functions := by
  unfold secPrint at hr
  split at hr
  · cases hr; rfl
  · split at hr
    · obtain ⟨t, -, ht⟩ := Res.bind_eq_ok hr
      cases ht; rfl
    · cases hr; rfl

theorem secLet_functions {h : Host} {tokens : List String} {s s' : State}
    (hr : secLet h tokens s = .ok s') : s'.functions = s.functions := by
  unfold secLet at hr
  split at hr
  · split at hr
    · obtain ⟨t, -, ht⟩ := Res.bind_eq_ok hr
      cases ht; rfl
    · cases hr; rfl
  · cases hr; rfl

theorem secConst_functions {h : Host} {tokens : List String} {s s' : State}
    (hr : secConst h tokens s = .ok s') : s'.functions = s.functions := by
  unfold secConst at hr
  split at hr
  · split at hr
    · obtain ⟨t, -, ht⟩ := Res.bind_eq_ok hr
      cases ht; rfl
    · cases hr; rfl
  · cases hr; rfl

theorem secInput_functions {h : Host} {tokens : List String} {s s' : State}
    (hr : secInput h tokens s = .ok s') : s'.functions = s.functions := by
  unfold secInput at hr
  split at hr
  · split at hr
    · obtain ⟨t, -, ht⟩ := Res.bind_eq_ok hr
      cases ht; rfl
    · cases hr; rfl
  · cases hr; rfl

theorem secSleep_functions (h : Host) (tokens : List String) (s : State) :
    (secSleep h tokens s).functions = s.functions := by
  unfold secSleep
  split
  · split
    · split <;> rfl
    · rfl
  · rfl

theorem flatStep_functions {h : Host} {tokens : List String} {s s' : State}
    (hr : flatStep h tokens s = .ok s') : s'.functions = s.functions := by
  unfold flatStep at hr
  obtain ⟨s1, h1, hr⟩ := Res.bind_eq_ok hr
  obtain ⟨s2, h2, hr⟩ := Res.bind_eq_ok hr
  obtain ⟨s3, h3, hr⟩ := Res.bind_eq_ok hr
  obtain ⟨s4, h4, hr⟩ := Res.bind_eq_ok hr
  cases hr
  rw [secSleep_functions, secInput_functions h4, secConst_functions h3,
    secLet_functions h2, secPrint_functions h1]

/-- On a plain line one pass of the loop body is `flatStep` and a cursor
increment. -/
theorem execLine_plain (h : Host) (rec : Exec) (fuel : Nat) (lines : List String)
    (idx : Nat) (tokens : List String) (s : State)
    (hp : plain s.functions tokens = true) :
    execLine h rec fuel lines idx tokens s =
      (flatStep h tokens s).bind fun s' => .ok (idx + 1, s') := by
  obtain ⟨cmd, args, rfl⟩ := plain_tokens hp
  obtain ⟨hw, hu, hf⟩ := plain_cons hp
  simp only [blockWords, List.mem_cons, List.mem_singleton, not_or, List.not_mem_nil,
    or_false] at hw
  obtain ⟨-, hclass, hnew, hif, hswitch, hfor, hrepeat, hwhile, huntil, hfunc, hincl⟩ := hw
  unfold execLine flatStep
  cases h1 : secPrint h (cmd :: args) s <;> simp only [Res.bind_ok, Res.bind_panic, Res.bind_timeout]
  rename_i s1
  cases h2 : secLet h (cmd :: args) s1 <;> simp only [Res.bind_ok, Res.bind_panic, Res.bind_timeout]
  rename_i s2
  cases h3 : secConst h (cmd :: args) s2 <;> simp only [Res.bind_ok, Res.bind_panic, Res.bind_timeout]
  rename_i s3
  cases h4 : secInput h (cmd :: args) s3 <;> simp only [Res.bind_ok, Res.bind_panic, Res.bind_timeout]
  rename_i s4
  have hfn : mapGet (secSleep h (cmd :: args) s4).functions cmd = none := by
    rw [secSleep_functions, secInput_functions h4, secConst_functions h3,
      secLet_functions h2, secPrint_functions h1]
    exact hf
  simp only [secClass_skip _ _ _ _ _ _ hclass, secNew_skip _ _ _ _ _ hnew,
    secMethodCall_skip _ _ _ _ hu, secIf_skip _ _ _ _ _ _ _ hif,
    secSwitch_skip _ _ _ _ _ _ _ _ hswitch, secFor_skip _ _ _ _ _ _ _ _ hfor,
    secRepeat_skip _ _ _ _ _ _ hrepeat, secWhile_skip _ _ _ _ _ _ _ _ hwhile,
    secLoopUntil_skip _ _ _ _ _ _ _ _ huntil, secFunc_skip _ _ _ _ _ hfunc,
    secCall_skip _ _ _ _ _ hfn, secInclude_skip _ _ _ _ _ _ hincl, Res.bind_ok]

/-- The main loop on a plain line: the statement acts, the loop goes on with
the next line. -/
theorem execBlock_plain (h : Host) (fuel : Nat) (lines : List String) (idx : Nat)
    (l : String) (s : State) (hl : lines[idx]? = some l)
    (hp : plain s.functions (tokenize l) = true) :
    execBlock h (fuel + 1) lines idx s =
      (flatStep h (tokenize l) s).bind fun s' => execBlock h fuel lines (idx + 1) s' := by
  obtain ⟨cmd, args, ht⟩ := plain_tokens hp
  have hend : cmd ≠ "end" := by
    have := (plain_cons (ht ▸ hp)).1
    simp [blockWords] at this
    exact this.1
  rw [execBlock, hl]
  simp only [ht, hend, if_false]
  rw [execLine_plain h _ fuel lines idx (cmd :: args) s (ht ▸ hp), Res.bind_assoc]
  simp only [Res.bind_ok]

/-- The main loop stops on a line whose first token is `end`. -/
theorem execBlock_end (h : Host) (fuel : Nat) (lines : List String) (idx : Nat)
    (l : String) (args : List String) (s : State) (hl : lines[idx]? = some l)
    (ht : tokenize l = "end" :: args) :
    execBlock h (fuel + 1) lines idx s = .ok (idx, s) := by
  rw [execBlock, hl]
  simp [ht]

/-! ### The loop body on a block keyword -/

theorem execLine_if (h : Host) (rec : Exec) (fuel : Nat) (lines : List String)
    (idx : Nat) (args : List String) (s : State) :
    execLine h rec fuel lines idx ("if" :: args) s =
      (secIf h rec lines idx ("if" :: args) s).bind fun r =>
        (secCall h rec ("if" :: args) r.2).bind fun s' => .ok (r.1 + 1, s') := by
  unfold execLine
  simp only [secPrint_skip h "if" args _ (by decide),
    secLet_skip h "if" args _ (by decide),
    secConst_skip h "if" args _ (by decide),
    secInput_skip h "if" args _ (by decide),
    secClass_skip _ _ _ "if" args _ (by decide),
    secNew_skip h _ "if" args _ (by decide),
    secSleep_skip h "if" args _ (by decide),
    secSwitch_skip h _ _ _ _ "if" args _ (by decide),
    secFor_skip h _ _ _ _ "if" args _ (by decide),
    secRepeat_skip _ _ _ "if" args _ (by decide),
    secWhile_skip h _ _ _ _ "if" args _ (by decide),
    secLoopUntil_skip h _ _ _ _ "if" args _ (by decide),
    secFunc_skip _ _ "if" args _ (by decide),
    secInclude_skip h _ _ "if" args _ (by decide),
    secMethodCall_skip _ "if" args _ (by decide), Res.bind_ok, Res.bind_assoc]

theorem execLine_switch (h : Host) (rec : Exec) (fuel : Nat) (lines : List String)
    (idx : Nat) (args : List String) (s : State) :
    execLine h rec fuel lines idx ("switch" :: args) s =
      (secSwitch h rec fuel lines idx ("switch" :: args) s).bind fun r =>
        (secCall h rec ("switch" :: args) r.2).bind fun s' => .ok (r.1 + 1, s') := by
  unfold execLine
  simp only [secPrint_skip h "switch" args _ (by decide),
    secLet_skip h "switch" args _ (by decide),
    secConst_skip h "switch" args _ (by decide),
    secInput_skip h "switch" args _ (by decide),
    secClass_skip _ _ _ "switch" args _ (by decide),
    secNew_skip h _ "switch" args _ (by decide),
    secSleep_skip h "switch" args _ (by decide),
    secIf_skip h _ _ _ "switch" args _ (by decide),
    secFor_skip h _ _ _ _ "switch" args _ (by decide),
    secRepeat_skip _ _ _ "switch" args _ (by decide),
    secWhile_skip h _ _ _ _ "switch" args _ (by decide),
    secLoopUntil_skip h _ _ _ _ "switch" args _ (by decide),
    secFunc_skip _ _ "switch" args _ (by decide),
    secInclude_skip h _ _ "switch" args _ (by decide),
    secMethodCall_skip _ "switch" args _ (by decide), Res.bind_ok, Res.bind_assoc]

theorem execLine_for (h : Host) (rec : Exec) (fuel : Nat) (lines : List String)
    (idx : Nat) (args : List String) (s : State) :
    execLine h rec fuel lines idx ("for" :: args) s =
      (secFor h rec fuel lines idx ("for" :: args) s).bind fun r =>
        (secCall h rec ("for" :: args) r.2).bind fun s' => .ok (r.1 + 1, s') := by
  unfold execLine
  simp only [secPrint_skip h "for" args _ (by decide),
    secLet_skip h "for" args _ (by decide),
    secConst_skip h "for" args _ (by decide),
    secInput_skip h "for" args _ (by decide),
    secClass_skip _ _ _ "for" args _ (by decide),
    secNew_skip h _ "for" args _ (by decide),
    secSleep_skip h "for" args _ (by decide),
    secIf_skip h _ _ _ "for" args _ (by decide),
    secSwitch_skip h _ _ _ _ "for" args _ (by decide),
    secRepeat_skip _ _ _ "for" args _ (by decide),
    secWhile_skip h _ _ _ _ "for" args _ (by decide),
    secLoopUntil_skip h _ _ _ _ "for" args _ (by decide),
    secFunc_skip _ _ "for" args _ (by decide),
    secInclude_skip h _ _ "for" args _ (by decide),
    secMethodCall_skip _ "for" args _ (by decide), Res.bind_ok, Res.bind_assoc]

theorem execLine_repeat (h : Host) (rec : Exec) (fuel : Nat) (lines : List String)
    (idx : Nat) (args : List String) (s : State) :
    execLine h rec fuel lines idx ("repeat" :: args) s =
      (secRepeat rec lines idx ("repeat" :: args) s).bind fun r =>
        (secCall h rec ("repeat" :: args) r.2).bind fun s' => .ok (r.1 + 1, s') := by
  unfold execLine
  simp only [secPrint_skip h "repeat" args _ (by decide),
    secLet_skip h "repeat" args _ (by decide),
    secConst_skip h "repeat" args _ (by decide),
    secInput_skip h "repeat" args _ (by decide),
    secClass_skip _ _ _ "repeat" args _ (by decide),
    secNew_skip h _ "repeat" args _ (by decide),
    secSleep_skip h "repeat" args _ (by decide),
    secIf_skip h _ _ _ "repeat" args _ (by decide),
    secSwitch_skip h _ _ _ _ "repeat" args _ (by decide),
    secFor_skip h _ _ _ _ "repeat" args _ (by decide),
    secWhile_skip h _ _ _ _ "repeat" args _ (by decide),
    secLoopUntil_skip h _ _ _ _ "repeat" args _ (by decide),
    secFunc_skip _ _ "repeat" args _ (by decide),
    secInclude_skip h _ _ "repeat" args _ (by decide),
    secMethodCall_skip _ "repeat" args _ (by decide), Res.bind_ok, Res.bind_assoc]

theorem execLine_while (h : Host) (rec : Exec) (fuel : Nat) (lines : List String)
    (idx : Nat) (args : List String) (s : State) :
    execLine h rec fuel lines idx ("while" :: args) s =
      (secWhile h rec fuel lines idx ("while" :: args) s).bind fun r =>
        (secCall h rec ("while" :: args) r.2).bind fun s' => .ok (r.1 + 1, s') := by
  unfold execLine
  simp only [secPrint_skip h "while" args _ (by decide),
    secLet_skip h "while" args _ (by decide),
    secConst_skip h "while" args _ (by decide),
    secInput_skip h "while" args _ (by decide),
    secClass_skip _ _ _ "while" args _ (by decide),
    secNew_skip h _ "while" args _ (by decide),
    secSleep_skip h "while" args _ (by decide),
    secIf_skip h _ _ _ "while" args _ (by decide),
    secSwitch_skip h _ _ _ _ "while" args _ (by decide),
    secFor_skip h _ _ _ _ "while" args _ (by decide),
    secRepeat_skip _ _ _ "while" args _ (by decide),
    secLoopUntil_skip h _ _ _ _ "while" args _ (by decide),
    secFunc_skip _ _ "while" args _ (by decide),
    secInclude_skip h _ _ "while" args _ (by decide),
    secMethodCall_skip _ "while" args _ (by decide), Res.bind_ok, Res.bind_assoc]

theorem execLine_loopuntil (h : Host) (rec : Exec) (fuel : Nat) (lines : List String)
    (idx : Nat) (args : List String) (s : State) :
    execLine h rec fuel lines idx ("loopuntil" :: args) s =
      (secLoopUntil h rec fuel lines idx ("loopuntil" :: args) s).bind fun r =>
        (secCall h rec ("loopuntil" :: args) r.2).bind fun s' => .ok (r.1 + 1, s') := by
  unfold execLine
  simp only [secPrint_skip h "loopuntil" args _ (by decide),
    secLet_skip h "loopuntil" args _ (by decide),
    secConst_skip h "loopuntil" args _ (by decide),
    secInput_skip h "loopuntil" args _ (by decide),
    secClass_skip _ _ _ "loopuntil" args _ (by decide),
    secNew_skip h _ "loopuntil" args _ (by decide),
    secSleep_skip h "loopuntil" args _ (by decide),
    secIf_skip h _ _ _ "loopuntil" args _ (by decide),
    secSwitch_skip h _ _ _ _ "loopuntil" args _ (by decide),
    secFor_skip h _ _ _ _ "loopuntil" args _ (by decide),
    secRepeat_skip _ _ _ "loopuntil" args _ (by decide),
    secWhile_skip h _ _ _ _ "loopuntil" args _ (by decide),
    secFunc_skip _ _ "loopuntil" args _ (by decide),
    secInclude_skip h _ _ "loopuntil" args _ (by decide),
    secMethodCall_skip _ "loopuntil" args _ (by decide), Res.bind_ok, Res.bind_assoc]

theorem Res.le_refl {α : Type} (a : Res α) : a.le a := Or.inr rfl

theorem Res.timeout_le {α : Type} (b : Res α) : (Res.timeout : Res α).le b := Or.inl rfl

theorem Res.le_bind {α β : Type} {a a' : Res α} {f f' : α → Res β}
    (ha : a.le a') (hf : ∀ x, (f x).le (f' x)) : (a.bind f).le (a'.bind f') := by
  rcases ha with rfl | rfl
  · exact Or.inl rfl
  · cases a with
    | ok x => exact hf x
    | panic => exact Or.inr rfl
    | timeout => exact Or.inl rfl

theorem Res.le_bind_left {α β : Type} (a : Res α) {f f' : α → Res β}
    (hf : ∀ x, (f x).le (f' x)) : (a.bind f).le (a.bind f') :=
  Res.le_bind (Res.le_refl a) hf

theorem Res.le_ok {α : Type} {a b : Res α} {x : α} (hab : a.le b) (ha : a = .ok x) :
    b = .ok x := by
  rcases hab with h | h
  · rw [h] at ha; cases ha
  · rw [← h, ha]

theorem Res.le_panic {α : Type} {a b : Res α} (hab : a.le b) (ha : a = .panic) :
    b = .panic := by
  rcases hab with h | h
  · rw [h] at ha; cases ha
  · rw [← h, ha]

theorem classLoop_mono (lines : List String) (fuel idx : Nat) (ms : List (String × Function)) :
    (classLoop lines fuel idx ms).le (classLoop lines (fuel + 1) idx ms) := by
  induction fuel generalizing idx ms with
  | zero => exact Res.timeout_le _
  | succ n ih =>
    rw [classLoop, classLoop]
    split
    · exact Res.le_refl _
    · split
      · exact Res.le_refl _
      · split
        · exact Res.le_refl _
        · split
          · split
            · exact Res.le_refl _
            · exact Res.le_bind_left _ (fun r => ih _ _)
          · exact ih _ _

theorem secClass_mono (fuel : Nat) (lines : List String) (idx : Nat) (tokens : List String)
    (s : State) : (secClass fuel lines idx tokens s).le (secClass (fuel + 1) lines idx tokens s) := by
  unfold secClass
  split
  · exact Res.le_refl _
  · split
    · split
      · exact Res.le_refl _
      · exact Res.le_bind (classLoop_mono _ _ _ _) (fun r => Res.le_refl _)
    · exact Res.le_refl _

theorem secNew_mono (h : Host) {rec rec' : Exec} (hrec : ExecLe rec rec') (tokens : List String)
    (s : State) : (secNew h rec tokens s).le (secNew h rec' tokens s) := by
  unfold secNew
  split
  · split
    · refine Res.le_bind_left _ (fun ms => Res.le_bind ?_ (fun s3 => Res.le_refl _))
      split
      · exact Res.le_bind_left _ (fun s2 => Res.le_bind (hrec _ _ _) (fun r => Res.le_refl _))
      · exact Res.le_refl _
    · exact Res.le_refl _
  · exact Res.le_refl _

theorem secMethodCall_mono {rec rec' : Exec} (hrec : ExecLe rec rec') (tokens : List String)
    (s : State) : (secMethodCall rec tokens s).le (secMethodCall rec' tokens s) := by
  unfold secMethodCall
  split
  · exact Res.le_refl _
  · split
    · simp only []
      split
      · refine Res.le_bind_left _ (fun ms => ?_)
        split
        · exact Res.le_bind (hrec _ _ _) (fun r => Res.le_refl _)
        · exact Res.le_refl _
      · exact Res.le_refl _
    · exact Res.le_refl _

theorem ifScan_mono (h : Host) {rec rec' : Exec} (hrec : ExecLe rec rec') (lines : List String)
    (rest : List String) (idx : Nat) (s : State) :
    (ifScan h rec lines rest idx s).le (ifScan h rec' lines rest idx s) := by
  induction rest generalizing idx with
  | nil => exact Res.le_refl _
  | cons l ls ih =>
    rw [ifScan, ifScan]
    split
    · exact ih _
    · split
      · split
        · exact Res.le_refl _
        · refine Res.le_bind_left _ (fun c => ?_)
          split
          · exact hrec _ _ _
          · exact ih _
      · split
        · exact hrec _ _ _
        · split
          · exact Res.le_refl _
          · exact ih _

theorem secIf_mono (h : Host) {rec rec' : Exec} (hrec : ExecLe rec rec') (lines : List String)
    (idx : Nat) (tokens : List String) (s : State) :
    (secIf h rec lines idx tokens s).le (secIf h rec' lines idx tokens s) := by
  unfold secIf
  split
  · exact Res.le_refl _
  · split
    · split
      · exact Res.le_refl _
      · refine Res.le_bind_left _ (fun c => ?_)
        split
        · exact hrec _ _ _
        · exact ifScan_mono h hrec _ _ _ _
    · exact Res.le_refl _

theorem switchLoop_mono (h : Host) {rec rec' : Exec} (hrec : ExecLe rec rec')
    (lines : List String) (sv : Value) (fuel : Nat) (matched : Bool) (idx : Nat) (s : State) :
    (switchLoop h rec lines sv fuel matched idx s).le
      (switchLoop h rec' lines sv (fuel + 1) matched idx s) := by
  induction fuel generalizing matched idx s with
  | zero => exact Res.timeout_le _
  | succ n ih =>
    rw [switchLoop, switchLoop]
    split
    · exact Res.le_refl _
    · split
      · exact ih _ _ _
      · split
        · split
          · exact Res.le_refl _
          · refine Res.le_bind_left _ (fun cv => Res.le_bind_left _ (fun same => ?_))
            split
            · exact Res.le_bind (hrec _ _ _) (fun r => ih _ _ _)
            · exact ih _ _ _
        · split
          · exact Res.le_bind (hrec _ _ _) (fun r => ih _ _ _)
          · split
            · exact Res.le_refl _
            · exact ih _ _ _

theorem secSwitch_mono (h : Host) {rec rec' : Exec} (hrec : ExecLe rec rec') (fuel : Nat)
    (lines : List String) (idx : Nat) (tokens : List String) (s : State) :
    (secSwitch h rec fuel lines idx tokens s).le
      (secSwitch h rec' (fuel + 1) lines idx tokens s) := by
  unfold secSwitch
  split
  · exact Res.le_refl _
  · split
    · split
      · exact Res.le_refl _
      · exact Res.le_bind_left _ (fun sv => switchLoop_mono h hrec _ _ _ _ _ _)
    · exact Res.le_refl _

theorem forLoop_mono {rec rec' : Exec} (hrec : ExecLe rec rec') (lines : List String)
    (idx : Nat) (var : String) (stop : Int) (fuel : Nat) (i : Int) (s : State) :
    (forLoop rec lines idx var stop fuel i s).le
      (forLoop rec' lines idx var stop (fuel + 1) i s) := by
  induction fuel generalizing i s with
  | zero => exact Res.timeout_le _
  | succ n ih =>
    rw [forLoop, forLoop]
    split
    · exact Res.le_bind (hrec _ _ _) (fun r => ih _ _)
    · exact Res.le_refl _

theorem secFor_mono (h : Host) {rec rec' : Exec} (hrec : ExecLe rec rec') (fuel : Nat)
    (lines : List String) (idx : Nat) (tokens : List String) (s : State) :
    (secFor h rec fuel lines idx tokens s).le (secFor h rec' (fuel + 1) lines idx tokens s) := by
  unfold secFor
  split
  · split
    · exact Res.le_bind_left _ (fun a => Res.le_bind_left _ (fun b =>
        Res.le_bind (forLoop_mono hrec _ _ _ _ _ _ _) (fun s1 => Res.le_refl _)))
    · exact Res.le_refl _
  · exact Res.le_refl _

theorem repeatLoop_mono {rec rec' : Exec} (hrec : ExecLe rec rec') (lines : List String)
    (idx : Nat) (n : Nat) (s : State) :
    (repeatLoop rec lines idx n s).le (repeatLoop rec' lines idx n s) := by
  induction n generalizing s with
  | zero => exact Res.le_refl _
  | succ n ih => exact Res.le_bind (hrec _ _ _) (fun r => ih _)

theorem secRepeat_mono {rec rec' : Exec} (hrec : ExecLe rec rec')
    (lines : List String) (idx : Nat) (tokens : List String) (s : State) :
    (secRepeat rec lines idx tokens s).le (secRepeat rec' lines idx tokens s) := by
  unfold secRepeat
  split
  · split
    · refine Res.le_bind ?_ (fun s1 => Res.le_refl _)
      split
      · exact Res.le_refl _
      · exact repeatLoop_mono hrec _ _ _ _
    · exact Res.le_refl _
  · exact Res.le_refl _

theorem whileLoop_mono (h : Host) {rec rec' : Exec} (hrec : ExecLe rec rec')
    (lines : List String) (idx : Nat) (c : String) (fuel : Nat) (s : State) :
    (whileLoop h rec lines idx c fuel s).le (whileLoop h rec' lines idx c (fuel + 1) s) := by
  induction fuel generalizing s with
  | zero => exact Res.timeout_le _
  | succ n ih =>
    rw [whileLoop, whileLoop]
    refine Res.le_bind_left _ (fun v => ?_)
    split
    · exact Res.le_bind (hrec _ _ _) (fun r => ih _)
    · exact Res.le_refl _

theorem secWhile_mono (h : Host) {rec rec' : Exec} (hrec : ExecLe rec rec') (fuel : Nat)
    (lines : List String) (idx : Nat) (tokens : List String) (s : State) :
    (secWhile h rec fuel lines idx tokens s).le
      (secWhile h rec' (fuel + 1) lines idx tokens s) := by
  unfold secWhile
  split
  · split
    · exact Res.le_bind (whileLoop_mono h hrec _ _ _ _ _) (fun s1 => Res.le_refl _)
    · exact Res.le_refl _
  · exact Res.le_refl _

theorem untilLoop_mono (h : Host) {rec rec' : Exec} (hrec : ExecLe rec rec')
    (lines : List String) (idx : Nat) (c : String) (fuel : Nat) (s : State) :
    (untilLoop h rec lines idx c fuel s).le (untilLoop h rec' lines idx c (fuel + 1) s) := by
  induction fuel generalizing s with
  | zero => exact Res.timeout_le _
  | succ n ih =>
    rw [untilLoop, untilLoop]
    refine Res.le_bind (hrec _ _ _) (fun r => Res.le_bind_left _ (fun v => ?_))
    split
    · exact Res.le_refl _
    · exact ih _

theorem secLoopUntil_mono (h : Host) {rec rec' : Exec} (hrec : ExecLe rec rec') (fuel : Nat)
    (lines : List String) (idx : Nat) (tokens : List String) (s : State) :
    (secLoopUntil h rec fuel lines idx tokens s).le
      (secLoopUntil h rec' (fuel + 1) lines idx tokens s) := by
  unfold secLoopUntil
  split
  · split
    · exact Res.le_bind (untilLoop_mono h hrec _ _ _ _ _) (fun s1 => Res.le_refl _)
    · exact Res.le_refl _
  · exact Res.le_refl _

theorem secCall_mono (h : Host) {rec rec' : Exec} (hrec : ExecLe rec rec')
    (tokens : List String) (s : State) :
    (secCall h rec tokens s).le (secCall h rec' tokens s) := by
  unfold secCall
  split
  · exact Res.le_refl _
  · split
    · exact Res.le_bind_left _ (fun args => Res.le_bind_left _ (fun m =>
        Res.le_bind (hrec _ _ _) (fun r => Res.le_refl _)))
    · exact Res.le_refl _

theorem secInclude_mono (h : Host) {rec rec' : Exec} (hrec : ExecLe rec rec') (idx : Nat)
    (tokens : List String) (s : State) :
    (secInclude h rec idx tokens s).le (secInclude h rec' idx tokens s) := by
  unfold secInclude
  simp only []
  split
  · split
    · split
      · exact Res.le_refl _
      · split
        · exact Res.le_refl _
        · exact Res.le_bind (hrec _ _ _) (fun r => Res.le_refl _)
    · exact Res.le_refl _
  · exact Res.le_refl _

theorem execLine_mono (h : Host) {rec rec' : Exec} (hrec : ExecLe rec rec') (fuel : Nat)
    (lines : List String) (idx : Nat) (tokens : List String) (s : State) :
    (execLine h rec fuel lines idx tokens s).le
      (execLine h rec' (fuel + 1) lines idx tokens s) := by
  unfold execLine
  refine Res.le_bind_left _ (fun s1 => Res.le_bind_left _ (fun s2 =>
    Res.le_bind_left _ (fun s3 => Res.le_bind_left _ (fun s4 =>
    Res.le_bind (secClass_mono _ _ _ _ _) (fun r1 =>
    Res.le_bind (secNew_mono h hrec _ _) (fun s5 =>
    Res.le_bind (secMethodCall_mono hrec _ _) (fun s6 =>
    Res.le_bind (secIf_mono h hrec _ _ _ _) (fun r2 =>
    Res.le_bind (secSwitch_mono h hrec _ _ _ _ _) (fun r3 =>
    Res.le_bind (secFor_mono h hrec _ _ _ _ _) (fun r4 =>
    Res.le_bind (secRepeat_mono hrec _ _ _ _) (fun r5 =>
    Res.le_bind (secWhile_mono h hrec _ _ _ _ _) (fun r6 =>
    Res.le_bind (secLoopUntil_mono h hrec _ _ _ _ _) (fun r7 =>
    Res.le_bind_left _ (fun r8 =>
    Res.le_bind (secCall_mono h hrec _ _) (fun s7 =>
    secInclude_mono h hrec _ _ _)))))))))))))))

/-- One more unit of fuel confirms every result of `execBlock`. -/
theorem execBlock_mono_step (h : Host) (n : Nat) : ExecLe (execBlock h n) (execBlock h (n + 1)) := by
  induction n with
  | zero => intro lines idx s; exact Res.timeout_le _
  | succ n ih =>
    intro lines idx s
    rw [execBlock, execBlock]
    split
    · exact Res.le_refl _
    · split
      · exact ih _ _ _
      · split
        · exact Res.le_refl _
        · exact Res.le_bind (execLine_mono h ih _ _ _ _ _) (fun r => ih _ _ _)

/-- More fuel confirms every result of `execBlock`. -/
theorem execBlock_mono (h : Host) (n k : Nat) : ExecLe (execBlock h n) (execBlock h (n + k)) := by
  induction k with
  | zero => intro lines idx s; exact Res.le_refl _
  | succ k ih =>
    intro lines idx s
    rcases ih lines idx s with h0 | h0
    · exact Or.inl h0
    · rw [h0]; exact execBlock_mono_step h (n + k) lines idx s

/-- A result of `execute` stays the result for every larger amount of fuel. -/
theorem execute_mono (h : Host) (n k : Nat) (lines : List String) (s : State) :
    (execute h n lines s).le (execute h (n + k) lines s) :=
  Res.le_bind (execBlock_mono h n k lines 0 s) (fun _ => Res.le_refl _)

/-- A result of `execute` that is not a lack of fuel is the result for every
larger amount of fuel. -/
theorem execute_stable (h : Host) (n : Nat) (lines : List String) (s : State)
    (hr : execute h n lines s ≠ .timeout) (k : Nat) :
    execute h (n + k) lines s = execute h n lines s := by
  rcases execute_mono h n k lines s with h0 | h0
  · exact absurd h0 hr
  · exact h0.symm

/-! ## Statement lines -/

/-- A result that is a failure stays a failure: no amount of fuel turns it
into a value. -/
theorem execute_panic_never_ok (h : Host) (n : Nat) (lines : List String) (s : State)
    (hp : execute h n lines s = .panic) :
    ¬ ∃ (fuel : Nat) (s' : State), execute h fuel lines s = .ok s' := by
  rintro ⟨m, s', hm⟩
  rcases Nat.le_total m n with hle | hle
  · obtain ⟨k, rfl⟩ := Nat.exists_eq_add_of_le hle
    rcases execute_mono h m k lines s with h0 | h0
    · rw [hm] at h0; cases h0
    · rw [hm, hp] at h0; cases h0
  · obtain ⟨k, rfl⟩ := Nat.exists_eq_add_of_le hle
    rw [execute_stable h n lines s (by rw [hp]; simp) k, hp] at hm
    cases hm

theorem end_tokens {endLine : String} (hend : (tokenize endLine).head? = some "end") :
    ∃ t, tokenize endLine = "end" :: t := by
  cases ht : tokenize endLine with
  | nil => simp [ht] at hend
  | cons a t =>
    rw [ht] at hend
    simp at hend
    exact ⟨t, by rw [hend]⟩

theorem stmtLine_tokens {l : String} (hl : stmtLine l = true) :
    ∃ cmd args, tokenize l = cmd :: args ∧ cmd ∉ nestWords := by
  unfold stmtLine at hl
  cases ht : tokenize l with
  | nil => simp [ht] at hl
  | cons c a =>
    rw [ht] at hl
    exact ⟨c, a, rfl, by simpa using hl⟩

theorem stmtLine_walkLine {l : String} (hl : stmtLine l = true) : walkLine l = true := by
  obtain ⟨cmd, args, ht, hw⟩ := stmtLine_tokens hl
  simp [walkLine, ht, hw]

theorem bodyLine_walkLine {l : String} (hl : bodyLine l = true) : walkLine l = true := by
  unfold bodyLine at hl
  unfold walkLine
  cases ht : tokenize l with
  | nil => rfl
  | cons c a =>
    rw [ht] at hl
    simp only [Bool.and_eq_true, decide_eq_true_eq] at hl
    simp [hl.1.1]

/-- The `include` block moves the cursor one line on, whatever it does to the
state. -/
theorem secInclude_step (h : Host) (rec : Exec) (idx : Nat) (tokens : List String)
    (s : State) :
    secInclude h rec idx tokens s =
      (includeStep h rec tokens s).bind fun s' => .ok (idx + 1, s') := by
  unfold includeStep secInclude
  split
  · split
    · simp only [List.not_mem_nil, if_false]
      split
      · rfl
      · rw [Res.bind_assoc, Res.bind_assoc]; rfl
    · rfl
  · rfl

/-- On a line whose first token is no block keyword, one pass of the loop
body is `stmtStep` and a cursor increment. -/
theorem execLine_walk (h : Host) (rec : Exec) (fuel : Nat) (lines : List String)
    (idx : Nat) (cmd : String) (args : List String) (s : State) (hw : cmd ∉ nestWords) :
    execLine h rec fuel lines idx (cmd :: args) s =
      (stmtStep h rec (cmd :: args) s).bind fun s' => .ok (idx + 1, s') := by
  simp only [nestWords, List.mem_cons, List.mem_singleton, not_or, List.not_mem_nil,
    or_false] at hw
  obtain ⟨-, hclass, hif, hswitch, hfor, hrepeat, hwhile, huntil, hfunc⟩ := hw
  unfold execLine stmtStep
  simp only [secClass_skip _ _ _ _ _ _ hclass, secIf_skip _ _ _ _ _ _ _ hif,
    secSwitch_skip _ _ _ _ _ _ _ _ hswitch, secFor_skip _ _ _ _ _ _ _ _ hfor,
    secRepeat_skip _ _ _ _ _ _ hrepeat, secWhile_skip _ _ _ _ _ _ _ _ hwhile,
    secLoopUntil_skip _ _ _ _ _ _ _ _ huntil, secFunc_skip _ _ _ _ _ hfunc,
    secInclude_step h rec idx, Res.bind_ok, Res.bind_assoc]

/-- The walk over a body of statement lines up to the line that starts with
`end`: it is one pass over the body, and the cursor stops on the `end` line. -/
theorem execBlock_body (h : Host) (lines body : List String) (endLine : String)
    (rest : List String) (fuel i : Nat) (s : State)
    (hd : lines.drop i = body ++ endLine :: rest)
    (hb : ∀ l ∈ body, walkLine l = true)
    (hend : (tokenize endLine).head? = some "end") :
    execBlock h fuel lines i s =
      (runBody h fuel body s).bind fun s' => .ok (i + body.length, s') := by
  induction body generalizing fuel i s with
  | nil =>
    cases fuel with
    | zero => rfl
    | succ f =>
      obtain ⟨t, ht⟩ := end_tokens hend
      rw [execBlock_end h f lines i endLine t s (drop_eq_cons hd).1 ht]
      rfl
  | cons l ls ih =>
    cases fuel with
    | zero => rfl
    | succ f =>
      obtain ⟨hl, hd'⟩ := drop_eq_cons hd
      have hls : ∀ l' ∈ ls, walkLine l' = true := fun l' hl' => hb l' (List.mem_cons_of_mem _ hl')
      have hwl := hb l (List.mem_cons_self _ _)
      rw [execBlock, hl, runBody]
      cases ht : tokenize l with
      | nil =>
        simp only [ht]
        rw [ih f (i + 1) s hd' hls]
        congr 1; funext s1
        simp only [List.length_cons]
        congr 2; omega
      | cons cmd args =>
        have hw : cmd ∉ nestWords := by simpa [walkLine, ht] using hwl
        have hne : cmd ≠ "end" := fun hc => hw (by rw [hc]; decide)
        simp only [ht, if_neg hne]
        rw [execLine_walk h _ f lines i cmd args s hw]
        simp only [Res.bind_assoc, Res.bind_ok]
        congr 1; funext s1
        rw [ih f (i + 1) s1 hd' hls]
        congr 1; funext s2
        simp only [List.length_cons]
        congr 2; omega

/-- On a plain line `stmtStep` is `flatStep`: the walks it could start do not
come into play. -/
theorem stmtStep_plain (h : Host) (rec : Exec) (tokens : List String) (s : State)
    (hp : plain s.functions tokens = true) :
    stmtStep h rec tokens s = flatStep h tokens s := by
  obtain ⟨cmd, args, rfl⟩ := plain_tokens hp
  obtain ⟨hw, hu, hf⟩ := plain_cons hp
  simp only [blockWords, List.mem_cons, List.mem_singleton, not_or, List.not_mem_nil,
    or_false] at hw
  obtain ⟨-, -, hnew, -, -, -, -, -, -, -, hincl⟩ := hw
  unfold stmtStep flatStep includeStep
  cases h1 : secPrint h (cmd :: args) s <;> simp only [Res.bind_ok, Res.bind_panic, Res.bind_timeout]
  rename_i s1
  cases h2 : secLet h (cmd :: args) s1 <;> simp only [Res.bind_ok, Res.bind_panic, Res.bind_timeout]
  rename_i s2
  cases h3 : secConst h (cmd :: args) s2 <;> simp only [Res.bind_ok, Res.bind_panic, Res.bind_timeout]
  rename_i s3
  cases h4 : secInput h (cmd :: args) s3 <;> simp only [Res.bind_ok, Res.bind_panic, Res.bind_timeout]
  rename_i s4
  have hfn : mapGet (secSleep h (cmd :: args) s4).functions cmd = none := by
    rw [secSleep_functions, secInput_functions h4, secConst_functions h3,
      secLet_functions h2, secPrint_functions h1]
    exact hf
  simp only [secNew_skip _ _ _ _ _ hnew, secMethodCall_skip _ _ _ _ hu,
    secCall_skip _ _ _ _ _ hfn, secInclude_skip _ _ _ _ _ _ hincl, Res.bind_ok]

/-- On a body of plain lines a pass is the plain sequence of the statements,
whatever the fuel, as soon as the fuel exceeds the length of the body: such a
pass never runs out of fuel. -/
theorem runBody_plain (h : Host) (body : List String) (fuel : Nat) (s : State)
    (hp : ∀ l ∈ body, plain s.functions (tokenize l) = true) (hfuel : body.length < fuel) :
    runBody h fuel body s = runFlat h body s := by
  induction body generalizing fuel s with
  | nil =>
    obtain ⟨f, rfl⟩ : ∃ f, fuel = f + 1 := ⟨fuel - 1, by simp at hfuel; omega⟩
    rfl
  | cons l ls ih =>
    obtain ⟨f, rfl⟩ : ∃ f, fuel = f + 1 := ⟨fuel - 1, by omega⟩
    have hl := hp l (List.mem_cons_self _ _)
    obtain ⟨cmd, args, ht⟩ := plain_tokens hl
    rw [runBody]
    simp only [ht, runFlat]
    rw [stmtStep_plain h _ (cmd :: args) s (ht ▸ hl)]
    cases hs : flatStep h (cmd :: args) s with
    | ok s1 =>
      simp only [Res.bind_ok]
      refine ih f s1 (fun l' hl' => ?_) (by simp only [List.length_cons] at hfuel; omega)
      rw [flatStep_functions hs]
      exact hp l' (List.mem_cons_of_mem _ hl')
    | panic => rfl
    | timeout => rfl

/-- The skip loop passes over statement lines and stops on the `end` line. -/
theorem skipToEndAux_stmt (body : List String) (endLine : String) (rest : List String)
    (i : Nat) (hb : ∀ l ∈ body, stmtLine l = true)
    (hend : (tokenize endLine).head? = some "end") :
    skipToEndAux (body ++ endLine :: rest) i = .ok (i + body.length) := by
  induction body generalizing i with
  | nil =>
    obtain ⟨t, ht⟩ := end_tokens hend
    simp [skipToEndAux, ht]
  | cons l ls ih =>
    obtain ⟨cmd, args, ht, hw⟩ := stmtLine_tokens (hb l (List.mem_cons_self _ _))
    have hne : cmd ≠ "end" := fun hc => hw (by rw [hc]; decide)
    rw [List.cons_append, skipToEndAux]
    simp only [ht, hne, if_false]
    rw [ih (i + 1) (fun l' hl' => hb l' (List.mem_cons_of_mem _ hl')), List.length_cons]
    congr 1; omega

/-- The skip loop of a loop statement whose body is flat: from the loop line
to the `end` line. -/
theorem skipToEnd_loop (lines : List String) (idx : Nat)
    (loopLine cmd : String) (args body : List String) (endLine : String) (rest : List String)
    (hd : lines.drop idx = loopLine :: (body ++ endLine :: rest))
    (ht : tokenize loopLine = cmd :: args) (hcmd : cmd ≠ "end")
    (hb : ∀ l ∈ body, stmtLine l = true)
    (hend : (tokenize endLine).head? = some "end") :
    skipToEnd lines idx = .ok (idx + 1 + body.length) := by
  rw [skipToEnd, hd, skipToEndAux]
  simp only [ht, hcmd, if_false]
  exact skipToEndAux_stmt body endLine rest (idx + 1) hb hend

/-! ## C1: `switch` -/

/-- On a `case` line whose value differs from the switch value, with the latch
off, the clause scan makes no progress: its inner scan starts on the `case`
line itself and stops there, so every amount of fuel runs out. -/
theorem switchLoop_stuck (h : Host) (rec : Exec) (lines : List String) (sv : Value)
    (idx : Nat) (s : State) (l cv : String) (more rest : List String) (x : Value)
    (hd : lines.drop idx = l :: rest) (ht : tokenize l = "case" :: cv :: more)
    (he : evalExpr h s cv = .ok x) (hx : valEq x sv = .ok false) (fuel : Nat) :
    switchLoop h rec lines sv fuel false idx s = .timeout := by
  induction fuel with
  | zero => rfl
  | succ n ih =>
    rw [switchLoop, (drop_eq_cons hd).1]
    simp only [ht, he, hx, if_true, Res.bind_ok, Bool.or_self, Bool.false_eq_true, if_false]
    rw [hd]
    simp only [skipToClause, ht, true_or, if_true]
    exact ih

/-- A `switch` whose first `case` value differs from the switch value never
returns, whatever the fuel. -/
theorem execBlock_switch_stuck (h : Host) (lines : List String) (idx : Nat) (s : State)
    (l0 l cv e : String) (more0 more rest : List String) (sv x : Value)
    (hd : lines.drop idx = l0 :: l :: rest)
    (ht0 : tokenize l0 = "switch" :: e :: more0) (hsv : evalExpr h s e = .ok sv)
    (ht : tokenize l = "case" :: cv :: more)
    (he : evalExpr h s cv = .ok x) (hx : valEq x sv = .ok false) (fuel : Nat) :
    execBlock h fuel lines idx s = .timeout := by
  cases fuel with
  | zero => rfl
  | succ n =>
    obtain ⟨hl0, hd1⟩ := drop_eq_cons hd
    rw [execBlock, hl0]
    simp only [ht0, execLine_switch, secSwitch, hsv, Res.bind_ok, if_true]
    rw [if_neg (by decide),
      switchLoop_stuck h _ lines sv (idx + 1) s l cv more rest x hd1 ht he hx n]
    rfl

/-- Claim C1, evaluated on the code: for `v = 2` and the cases 1, 2, 3 the
run never ends. After `let v = 2` the cursor enters the `switch`, reaches
`case 1` and stays on that line for every amount of fuel; neither clause 2
nor clause 3 is ever executed. -/
theorem switch_first_case_differs_diverges :
    ∀ fuel : Nat, execute demoHost fuel switchProg (State.init []) = .timeout := by
  intro fuel
  unfold execute
  cases fuel with
  | zero => rfl
  | succ n =>
    have hstep := execBlock_plain demoHost n switchProg 0 "let v = 2" (State.init [])
      (by decide) (by decide)
    have hfs : flatStep demoHost (tokenize "let v = 2") (State.init []) =
        .ok { State.init [] with mutables := [("v", .int 2)] } := by decide
    have hsw := execBlock_switch_stuck demoHost switchProg 1
      { State.init [] with mutables := [("v", .int 2)] } "switch v" "case 1" "1" "v" [] []
      (switchProg.drop 3) (.int 2) (.int 1) (by decide) (by decide) (by decide) (by decide)
      (by decide) (by decide) n
    rw [hstep, hfs, Res.bind_ok, Nat.zero_add, hsw]
    rfl

/-! ## C2: a true `if` -/

/-- Claim C2, evaluated on the code: with a nonzero condition the nested walk
of the `if` block does not stop at `elif` or `else`; it passes over these
lines as unknown statements and executes the sibling bodies too, up to the
`end` of the chain. -/
theorem if_true_runs_sibling_bodies :
    execute demoHost 12 ifTrueProg (State.init []) =
      .ok { State.init [] with out := ["then\n", "elif\n", "else\n", "after\n"] } := by
  decide

/-! ## C3: a false `if` -/

theorem bodyLine_tokens {l : String} (hl : bodyLine l = true) :
    tokenize l = [] ∨ ∃ cmd args, tokenize l = cmd :: args ∧ cmd ≠ "elif" ∧ cmd ≠ "else" ∧
      cmd ≠ "end" := by
  unfold bodyLine at hl
  cases ht : tokenize l with
  | nil => exact Or.inl rfl
  | cons c a =>
    rw [ht] at hl
    simp only [Bool.and_eq_true, decide_eq_true_eq] at hl
    exact Or.inr ⟨c, a, rfl, hl.1.2, hl.2, fun hc => hl.1.1 (by rw [hc]; decide)⟩

/-- The sibling scan passes over the lines of a flat body without executing
them. -/
theorem ifScan_skip (h : Host) (rec : Exec) (lines : List String)
    (body tail : List String) (i : Nat) (s : State)
    (hb : ∀ l ∈ body, bodyLine l = true) :
    ifScan h rec lines (body ++ tail) i s = ifScan h rec lines tail (i + body.length) s := by
  induction body generalizing i with
  | nil => rfl
  | cons l ls ih =>
    have hls : ∀ l' ∈ ls, bodyLine l' = true := fun l' hl' => hb l' (List.mem_cons_of_mem _ hl')
    rw [List.cons_append, ifScan]
    rcases bodyLine_tokens (hb l (List.mem_cons_self _ _)) with ht | ⟨cmd, args, ht, h1, h2, h3⟩
    · simp only [ht]
      rw [ih (i + 1) hls, List.length_cons]
      congr 1; omega
    · simp only [ht, h1, h2, h3, if_false]
      rw [ih (i + 1) hls, List.length_cons]
      congr 1; omega

theorem elifClause_spec {c : Clause} (hc : elifClause c = true) :
    (∃ more, tokenize c.header = "elif" :: c.cond :: more) ∧
    ∀ l ∈ c.body, bodyLine l = true := by
  simp only [elifClause, Bool.and_eq_true, List.all_eq_true] at hc
  obtain ⟨hh, hb⟩ := hc
  refine ⟨?_, hb⟩
  unfold elifHeader at hh
  unfold Clause.cond
  cases ht : tokenize c.header with
  | nil => simp [ht] at hh
  | cons a t =>
    cases t with
    | nil => simp [ht] at hh
    | cons b m =>
      rw [ht] at hh
      simp at hh
      exact ⟨m, by simp [hh]⟩

theorem elseClause_spec {c : Clause} (hc : elseClause c = true) :
    (∃ more, tokenize c.header = "else" :: more) ∧
    ∀ l ∈ c.body, bodyLine l = true := by
  simp only [elseClause, Bool.and_eq_true, List.all_eq_true] at hc
  obtain ⟨hh, hb⟩ := hc
  refine ⟨?_, hb⟩
  unfold elseHeader at hh
  cases ht : tokenize c.header with
  | nil => simp [ht] at hh
  | cons a t =>
    rw [ht] at hh
    simp at hh
    exact ⟨t, by rw [hh]⟩

/-- The lines of clauses with flat bodies are lines the main loop passes as
statements, the headers included. -/
theorem clauseLines_walk {cs : List Clause}
    (hcs : ∀ c ∈ cs, elifClause c = true ∨ elseClause c = true) :
    ∀ l ∈ clauseLines cs, walkLine l = true := by
  induction cs with
  | nil => intro l hl; simp [clauseLines] at hl
  | cons c cs ih =>
    intro l hl
    simp only [clauseLines, List.mem_cons, List.mem_append] at hl
    have hc := hcs c (List.mem_cons_self _ _)
    rcases hl with rfl | hl | hl
    · rcases hc with hc | hc
      · obtain ⟨⟨m, hm⟩, -⟩ := elifClause_spec hc
        simp [walkLine, hm, nestWords]
      · obtain ⟨⟨m, hm⟩, -⟩ := elseClause_spec hc
        simp [walkLine, hm, nestWords]
    · rcases hc with hc | hc
      · exact bodyLine_walkLine ((elifClause_spec hc).2 l hl)
      · exact bodyLine_walkLine ((elseClause_spec hc).2 l hl)
    · exact ih (fun c' hc' => hcs c' (List.mem_cons_of_mem _ hc')) l hl

theorem clauseLines_append (a b : List Clause) :
    clauseLines (a ++ b) = clauseLines a ++ clauseLines b := by
  induction a with
  | nil => rfl
  | cons c cs ih => simp [clauseLines, ih]

/-- The sibling scan of a false `if`, started on the first clause header, is
`chainRun`, and it leaves the cursor on the `end` of the chain. -/
theorem ifScan_clauses (h : Host) (fuel : Nat) (lines : List String) (elifs : List Clause)
    (els : Option Clause) (endLine : String) (rest : List String) (i : Nat) (s : State)
    (hd : lines.drop i = clauseLines elifs ++ (elseLines els ++ endLine :: rest))
    (helif : ∀ e ∈ elifs, elifClause e = true)
    (hels : ∀ e ∈ els, elseClause e = true)
    (hend : (tokenize endLine).head? = some "end") :
    ifScan h (execBlock h fuel) lines
        (clauseLines elifs ++ (elseLines els ++ endLine :: rest)) i s =
      (chainRun h fuel s elifs els).bind fun s' =>
        .ok (i + ((clauseLines elifs).length + (elseLines els).length), s') := by
  induction elifs generalizing i with
  | nil =>
    cases els with
    | none =>
      obtain ⟨t, ht⟩ := end_tokens hend
      simp [elseLines, clauseLines, ifScan, ht, chainRun]
    | some c =>
      obtain ⟨⟨m, hm⟩, hb⟩ := elseClause_spec (hels c rfl)
      simp only [elseLines, clauseLines, Option.toList, List.append_nil, List.nil_append,
        List.cons_append, List.length_cons, List.length_nil, Nat.zero_add] at hd ⊢
      rw [ifScan]
      simp only [hm, if_true]
      rw [if_neg (show ¬ ("else" = "elif") by decide)]
      rw [execBlock_body h lines c.body endLine rest fuel (i + 1) s (drop_eq_cons hd).2
        (fun l hl => bodyLine_walkLine (hb l hl)) hend]
      simp only [chainRun]
      congr 1; funext s1
      congr 2; omega
  | cons e es ih =>
    obtain ⟨⟨m, hm⟩, hb⟩ := elifClause_spec (helif e (List.mem_cons_self _ _))
    have hes : ∀ c ∈ es, elifClause c = true := fun c hc => helif c (List.mem_cons_of_mem _ hc)
    simp only [clauseLines, List.cons_append, List.append_assoc, List.length_cons,
      List.length_append] at hd ⊢
    rw [ifScan]
    simp only [hm, if_true, chainRun, Res.bind_assoc]
    congr 1; funext v
    by_cases hz : v = 0
    · subst hz
      have hd2 := drop_append_shift e.body _ (drop_eq_cons hd).2
      simp only [ne_eq, not_true_eq_false, if_false]
      rw [ifScan_skip h _ lines e.body _ (i + 1) s hb, ih (i + 1 + e.body.length) hd2 hes]
      congr 1; funext s1
      congr 2; omega
    · simp only [ne_eq, hz, not_false_eq_true, if_true]
      have hcs : ∀ c ∈ es ++ els.toList, elifClause c = true ∨ elseClause c = true := by
        intro c hc
        rcases List.mem_append.1 hc with hc | hc
        · exact Or.inl (hes c hc)
        · exact Or.inr (hels c (by simpa using hc))
      have hcode : e.body ++ (clauseLines es ++ (elseLines els ++ endLine :: rest)) =
          (e.body ++ (clauseLines es ++ elseLines els)) ++ endLine :: rest := by
        simp
      have hd1 := (drop_eq_cons hd).2
      rw [hcode] at hd1
      rw [execBlock_body h lines (e.body ++ (clauseLines es ++ elseLines els)) endLine rest
        fuel (i + 1) s hd1 ?_ hend]
      · congr 1; funext s1
        congr 2
        simp only [List.length_append]
        omega
      · intro l hl
        rcases List.mem_append.1 hl with hl | hl
        · exact bodyLine_walkLine (hb l hl)
        · refine clauseLines_walk hcs l ?_
          rw [clauseLines_append]
          exact hl

/-- Claim C3 as stated fails in three ways. With a function registered under
the name `if` the function call block runs on the `if` line after the chain:
here it indexes past the arguments and the run fails instead of resuming
after `end`. An `elif` condition that is evaluated and is no integer fails
the run, and so does a statement that fails in the body that is run. -/
theorem if_fails_with_function_named_if :
    execute demoHost 8 ifFuncProg (State.init []) = .panic ∧
    (¬ ∃ (fuel : Nat) (s' : State),
      execute demoHost fuel ifFuncProg (State.init []) = .ok s') ∧
    execute demoHost 8 ifTextElifProg (State.init []) = .panic ∧
    execute demoHost 8 ifNewProg (State.init []) = .panic :=
  ⟨by decide, execute_panic_never_ok demoHost 8 ifFuncProg (State.init []) (by decide),
   by decide, by decide⟩

/-- Claim C3, amended: a chain `if c` … `elif` … `else` … `end` with flat
bodies and `c` evaluating to the integer 0. The `if` line does what
`chainRun` says: no line of the `if` block is run; the `elif` conditions are
evaluated in source order and the first body run is that of the first `elif`
with a nonzero condition, else that of the `else` clause, else nothing. Then
the function call block looks up the name `if`, and the main loop goes on
with the line after the chain's `end`; when no function is registered under
`if` after the chain, the main loop goes on there in the very state the chain
left. -/
theorem if_zero_takes_first_true_clause (h : Host) (fuel : Nat) (lines : List String)
    (idx : Nat) (s : State) (ifLine c : String) (more ifBody : List String)
    (elifs : List Clause) (els : Option Clause) (endLine : String) (rest : List String)
    (hd : lines.drop idx =
      ifLine :: (ifBody ++ (clauseLines elifs ++ (elseLines els ++ endLine :: rest))))
    (hif : tokenize ifLine = "if" :: c :: more)
    (hc : evalExpr h s c = .ok (.int 0))
    (hbody : ∀ l ∈ ifBody, bodyLine l = true)
    (helif : ∀ e ∈ elifs, elifClause e = true)
    (hels : ∀ e ∈ els, elseClause e = true)
    (hend : (tokenize endLine).head? = some "end") :
    execBlock h (fuel + 1) lines idx s =
      ((chainRun h fuel s elifs els).bind fun s1 =>
        (secCall h (execBlock h fuel) ("if" :: c :: more) s1).bind fun s2 =>
          execBlock h fuel lines
            (idx + (ifBody.length + (clauseLines elifs).length + (elseLines els).length + 2))
            s2) ∧
    ∀ s1, chainRun h fuel s elifs els = .ok s1 → mapGet s1.functions "if" = none →
      execBlock h (fuel + 1) lines idx s =
        execBlock h fuel lines
          (idx + (ifBody.length + (clauseLines elifs).length + (elseLines els).length + 2))
          s1 := by
  obtain ⟨hl, hd1⟩ := drop_eq_cons hd
  have hd2 := drop_append_shift ifBody _ hd1
  have hidx : idx + 1 + ifBody.length +
      ((clauseLines elifs).length + (elseLines els).length) + 1 =
      idx + (ifBody.length + (clauseLines elifs).length + (elseLines els).length + 2) := by
    omega
  have hrun : execBlock h (fuel + 1) lines idx s =
      ((chainRun h fuel s elifs els).bind fun s1 =>
        (secCall h (execBlock h fuel) ("if" :: c :: more) s1).bind fun s2 =>
          execBlock h fuel lines
            (idx + (ifBody.length + (clauseLines elifs).length + (elseLines els).length + 2))
            s2) := by
    rw [execBlock, hl]
    simp only [hif]
    rw [if_neg (show ¬ ("if" = "end") by decide), execLine_if]
    simp only [secIf, if_true, evalInt, hc, Res.bind_ok, ne_eq, not_true_eq_false, if_false]
    rw [hd1, ifScan_skip h _ lines ifBody _ (idx + 1) s hbody,
      ifScan_clauses h fuel lines elifs els endLine rest (idx + 1 + ifBody.length) s hd2 helif
        hels hend]
    simp only [Res.bind_assoc, Res.bind_ok, hidx]
  refine ⟨hrun, ?_⟩
  intro s1 hs1 hfn
  rw [hrun, hs1, Res.bind_ok, secCall_skip h _ "if" _ s1 hfn, Res.bind_ok]

/-- Claim C3, amended, at `ifFalseProg`: the bodies of the `if` and of the
false `elif` are not run, the first body run is that of `elif 7`, which calls
a function and holds an empty line, and the loop goes on after the `end`. -/
theorem if_zero_takes_first_true_clause_witness :
    chainRun demoHost 8 hiState
        [⟨"elif 0", ["print \"b\""]⟩, ⟨"elif 7", ["print \"c\"", "", "hi"]⟩]
        (some ⟨"else", ["print \"d\""]⟩) =
      .ok { hiState with out := ["c\n", "hi\n", "d\n"] } ∧
    execBlock demoHost (8 + 1) ifFalseProg 3 hiState =
      execBlock demoHost 8 ifFalseProg
        (3 + ([("print \"a\"" : String)].length +
          (clauseLines [⟨"elif 0", ["print \"b\""]⟩,
            ⟨"elif 7", ["print \"c\"", "", "hi"]⟩]).length +
          (elseLines (some ⟨"else", ["print \"d\""]⟩)).length + 2))
        { hiState with out := ["c\n", "hi\n", "d\n"] } ∧
    execute demoHost 12 ifFalseProg (State.init []) =
      .ok { hiState with out := ["c\n", "hi\n", "d\n", "z\n"] } :=
  ⟨by decide,
   (if_zero_takes_first_true_clause demoHost 8 ifFalseProg 3 hiState "if 0" "0" []
      ["print \"a\""] [⟨"elif 0", ["print \"b\""]⟩, ⟨"elif 7", ["print \"c\"", "", "hi"]⟩]
      (some ⟨"else", ["print \"d\""]⟩) "end" ["print \"z\""]
      (by decide) (by decide) (by decide) (by decide) (by decide) (by decide)
      (by decide)).2 _ (by decide) (by decide),
   by decide⟩

/-! ## C4: calling a registered function -/

/-- On a line whose first token is no keyword and has no underscore, one pass
of the loop body is the function call block and a cursor increment. -/
theorem execLine_callable (h : Host) (rec : Exec) (fuel : Nat) (lines : List String)
    (idx : Nat) (f : String) (args : List String) (s : State) (hf : callable f = true) :
    execLine h rec fuel lines idx (f :: args) s =
      (secCall h rec (f :: args) s).bind fun s' => .ok (idx + 1, s') := by
  simp only [callable, blockWords, statementWords, Bool.and_eq_true, decide_eq_true_eq,
    List.mem_cons, List.mem_singleton, not_or, List.not_mem_nil, or_false] at hf
  obtain ⟨⟨⟨-, hclass, hnew, hif, hswitch, hfor, hrepeat, hwhile, huntil, hfunc, hincl⟩,
    hprint, hlet, hconst, hinput, hsleep⟩, hu⟩ := hf
  unfold execLine
  simp only [secPrint_skip h f args _ hprint, secLet_skip h f args _ hlet,
    secConst_skip h f args _ hconst, secInput_skip h f args _ hinput,
    secSleep_skip h f args _ hsleep,
    secClass_skip _ _ _ _ _ _ hclass, secNew_skip _ _ _ _ _ hnew,
    secMethodCall_skip _ _ _ _ hu, secIf_skip _ _ _ _ _ _ _ hif,
    secSwitch_skip _ _ _ _ _ _ _ _ hswitch, secFor_skip _ _ _ _ _ _ _ _ hfor,
    secRepeat_skip _ _ _ _ _ _ hrepeat, secWhile_skip _ _ _ _ _ _ _ _ hwhile,
    secLoopUntil_skip _ _ _ _ _ _ _ _ huntil, secFunc_skip _ _ _ _ _ hfunc,
    secInclude_skip _ _ _ _ _ _ hincl, Res.bind_ok]


theorem mapGet_mapSet_same {α : Type} (m : List (String × α)) (k : String) (v : α) :
    mapGet (mapSet m k v) k = some v := by
  induction m with
  | nil => simp [mapSet, mapGet]
  | cons p rest ih =>
    obtain ⟨k', v'⟩ := p
    by_cases hk : k' = k
    · simp [mapSet, mapGet, hk]
    · simp [mapSet, mapGet, hk, ih]

theorem mapGet_mapSet_other {α : Type} (m : List (String × α)) (k k' : String) (v : α)
    (hk : k' ≠ k) : mapGet (mapSet m k' v) k = mapGet m k := by
  induction m with
  | nil => simp [mapSet, mapGet, hk]
  | cons p rest ih =>
    obtain ⟨k0, v0⟩ := p
    by_cases h0 : k0 = k'
    · subst h0; simp [mapSet, mapGet, hk]
    · by_cases h1 : k0 = k
      · subst h1; simp [mapSet, mapGet, h0]
      · simp [mapSet, mapGet, h0, h1, ih]

/-- The function call block gives back the mutable scope it found, whatever
the body did and whatever `rec` is. -/
theorem secCall_mutables {h : Host} {rec : Exec} {tokens : List String} {s s' : State}
    (hr : secCall h rec tokens s = .ok s') : s'.mutables = s.mutables := by
  unfold secCall at hr
  split at hr
  · cases hr; rfl
  · split at hr
    · obtain ⟨a, -, hr⟩ := Res.bind_eq_ok hr
      obtain ⟨m, -, hr⟩ := Res.bind_eq_ok hr
      obtain ⟨r, -, hr⟩ := Res.bind_eq_ok hr
      cases hr; rfl
    · cases hr; rfl

/-- Claim C5: a call of a registered function `f` that returns leaves the
mutable scope exactly as it was before the call: parameters and variables
made by the body are gone, reassigned variables have their old values. This
holds for the call block alone, for every name and every body (so also when the
body calls functions itself), and for the whole pass of the main loop on a call
line `f a1 … an` whose name is no keyword and has no underscore; the cursor
then moves to the next line. -/
theorem call_restores_mutables (h : Host) (fuel : Nat) (lines : List String) (idx : Nat)
    (f : String) (fn : Function) (args : List String) (s : State) (r : Nat × State)
    (hf : callable f = true) (hreg : mapGet s.functions f = some fn)
    (hr : execLine h (execBlock h fuel) fuel lines idx (f :: args) s = .ok r) :
    r.2.mutables = s.mutables ∧ r.1 = idx + 1 ∧
    (∃ vs m r', evalArgs h s args = .ok vs ∧ bindParams fn.params vs s.mutables = .ok m ∧
      execBlock h fuel fn.body 0 { s with mutables := m } = .ok r') ∧
    ∀ (rec : Exec) (tokens : List String) (s0 s1 : State),
      secCall h rec tokens s0 = .ok s1 → s1.mutables = s0.mutables := by
  rw [execLine_callable h _ fuel lines idx f args s hf] at hr
  obtain ⟨s1, hs1, hr⟩ := Res.bind_eq_ok hr
  cases hr
  refine ⟨secCall_mutables hs1, rfl, ?_, fun rec tokens s0 s1 h01 => secCall_mutables h01⟩
  simp only [secCall, hreg] at hs1
  obtain ⟨vs, hvs, hs1⟩ := Res.bind_eq_ok hs1
  obtain ⟨m, hm, hs1⟩ := Res.bind_eq_ok hs1
  obtain ⟨r', hr', -⟩ := Res.bind_eq_ok hs1
  exact ⟨vs, m, r', hvs, hm, hr'⟩

/-- Claim C5 at `scopeProg`: `x` is 1 before the call `f 5`; the body sets
`x`, `y` and the parameter `p` and calls `g`, which sets `x` and `z`; after
the call the mutable scope is again just `x = 1`. -/
theorem call_restores_mutables_witness :
    execLine demoHost (execBlock demoHost 6) 6 scopeProg 10 ["f", "5"] scopeState =
      .ok (11, scopeState) ∧
    (execute demoHost 12 scopeProg (State.init [])).bind (fun s => evalExpr demoHost s "x") =
      .ok (.int 1) ∧
    (11, scopeState).2.mutables = scopeState.mutables :=
  ⟨by decide, by decide,
   (call_restores_mutables demoHost 6 scopeProg 10 "f" ⟨["p"], ["let x = 2", "let y = p", "g"]⟩
      ["5"] scopeState (11, scopeState) (by decide) (by decide) (by decide)).1⟩

/-! ## C6: `for` -/

theorem wrap64_id {x : Int} (hlo : -2 ^ 63 ≤ x) (hhi : x < 2 ^ 63) : wrap64 x = x := by
  unfold wrap64
  omega

theorem wrap64_le (x : Int) : wrap64 x ≤ 2 ^ 63 - 1 := by
  unfold wrap64
  omega

/-- The counting loop of `for` over a flat body, as long as the counter stays
below the largest `int`: it is `forSpec`. -/
theorem forLoop_body (h : Host) (fuelB : Nat) (lines : List String) (idx : Nat) (var : String)
    (stop : Int) (body : List String) (endLine : String) (rest : List String)
    (hd : lines.drop (idx + 1) = body ++ endLine :: rest)
    (hb : ∀ l ∈ body, stmtLine l = true)
    (hend : (tokenize endLine).head? = some "end")
    (hstop : stop < 2 ^ 63 - 1)
    (n fuel : Nat) (i : Int) (s : State)
    (hn : n = (stop - i + 1).toNat) (hi : -2 ^ 63 ≤ i) (hfuel : n < fuel) :
    forLoop (execBlock h fuelB) lines idx var stop fuel i s =
      forSpec h fuelB var body n i s := by
  induction n generalizing fuel i s with
  | zero =>
    obtain ⟨f, rfl⟩ : ∃ f, fuel = f + 1 := ⟨fuel - 1, by omega⟩
    rw [forLoop, if_neg (by omega)]
    rfl
  | succ n ih =>
    obtain ⟨f, rfl⟩ : ∃ f, fuel = f + 1 := ⟨fuel - 1, by omega⟩
    rw [forLoop, if_pos (by omega),
      execBlock_body h lines body endLine rest fuelB (idx + 1) _ hd
        (fun l hl => stmtLine_walkLine (hb l hl)) hend]
    simp only [forSpec, Res.bind_assoc, Res.bind_ok]
    congr 1; funext s1
    rw [wrap64_id (by omega) (by omega)]
    exact ih f (i + 1) s1 (by omega) (by omega) (by omega)

/-- When the bound is the largest `int` the counting loop never gives a
result: the test `i <= end` holds for every `int`, also after the increment
has wrapped around. -/
theorem forLoop_max_never_ok (rec : Exec) (lines : List String) (idx : Nat) (var : String)
    (fuel : Nat) (i : Int) (s s' : State) (hi : i ≤ 2 ^ 63 - 1) :
    forLoop rec lines idx var (2 ^ 63 - 1) fuel i s ≠ .ok s' := by
  induction fuel generalizing i s with
  | zero => simp [forLoop]
  | succ f ih =>
    rw [forLoop, if_pos hi]
    intro hr
    obtain ⟨r, -, hr⟩ := Res.bind_eq_ok hr
    exact ih _ _ (wrap64_le _) hr

theorem forMaxProg_never_ok :
    ¬ ∃ (fuel : Nat) (s' : State),
      execute demoHost fuel forMaxProg (State.init []) = .ok s' := by
  rintro ⟨fuel, s', hr⟩
  unfold execute at hr
  obtain ⟨r, hr, -⟩ := Res.bind_eq_ok hr
  cases fuel with
  | zero => simp [execBlock] at hr
  | succ n =>
    have h0 : forMaxProg[0]? = some "for i = 9223372036854775807 to 9223372036854775807" := by
      decide
    have ht : tokenize "for i = 9223372036854775807 to 9223372036854775807" =
        ["for", "i", "=", "9223372036854775807", "to", "9223372036854775807"] := by decide
    have hv : evalInt demoHost (State.init []) "9223372036854775807" = .ok (2 ^ 63 - 1) := by
      decide
    rw [execBlock, h0] at hr
    simp only [ht] at hr
    rw [if_neg (by decide), execLine_for] at hr
    simp only [secFor, and_self, if_true, hv, Res.bind_ok] at hr
    obtain ⟨r1, hr, -⟩ := Res.bind_eq_ok hr
    obtain ⟨s1, hr, -⟩ := Res.bind_eq_ok hr
    obtain ⟨s2, hr, -⟩ := Res.bind_eq_ok hr
    exact forLoop_max_never_ok _ _ _ _ _ _ _ _ (le_refl _) hr

/-- Claim C6 as stated fails at the largest `int`: `for i = M to M` with
`M = 9223372036854775807` is to run its body once and go on after `end`, but
the run never returns, whatever the fuel: after the first pass `i++` wraps
around to the smallest `int`, which is again `<= M`. It also fails with a
function registered under the name `for`, which the function call block runs
on the loop line after the passes (here it indexes past the arguments), with
a line without tokens in the body, where the skip loop fails, and with a body
statement that fails. -/
theorem for_loop_max_int_never_returns :
    (¬ ∃ (fuel : Nat) (s' : State),
      execute demoHost fuel forMaxProg (State.init []) = .ok s') ∧
    execute demoHost 8 forFuncProg (State.init []) = .panic ∧
    (¬ ∃ (fuel : Nat) (s' : State),
      execute demoHost fuel forFuncProg (State.init []) = .ok s') ∧
    execute demoHost 8 loopBlankProg (State.init []) = .panic ∧
    execute demoHost 8 forNewProg (State.init []) = .panic :=
  ⟨forMaxProg_never_ok, by decide,
   execute_panic_never_ok demoHost 8 forFuncProg (State.init []) (by decide),
   by decide, by decide⟩

/-- Claim C6, amended: a loop `for var = ta to tb` with a flat body of
statement lines, whose bounds evaluate to the integers `a` and `b` with `a` a
Go `int` and `b` below the largest `int`. The loop line makes
`max(0, b - a + 1)` passes over the body, with `var` set to `a`, `a + 1`, …,
`b` at the start of the passes whatever the body assigned to it (`forSpec`),
then the function call block looks up the name `for`, and the main loop goes
on with the line after `end`; when no function is registered under `for`
after the passes, the main loop goes on there in the very state the passes
left. -/
theorem for_loop_runs_range (h : Host) (fuel : Nat) (lines : List String) (idx : Nat)
    (s : State) (forLine var ta tb : String) (more body : List String) (endLine : String)
    (rest : List String) (a b : Int)
    (hd : lines.drop idx = forLine :: (body ++ endLine :: rest))
    (ht : tokenize forLine = "for" :: var :: "=" :: ta :: "to" :: tb :: more)
    (ha : evalExpr h s ta = .ok (.int a)) (hb : evalExpr h s tb = .ok (.int b))
    (hlo : -2 ^ 63 ≤ a) (hhi : b < 2 ^ 63 - 1)
    (hbody : ∀ l ∈ body, stmtLine l = true)
    (hend : (tokenize endLine).head? = some "end")
    (hfuel : (b - a + 1).toNat < fuel) :
    execBlock h (fuel + 1) lines idx s =
      ((forSpec h fuel var body (b - a + 1).toNat a s).bind fun s1 =>
        (secCall h (execBlock h fuel) ("for" :: var :: "=" :: ta :: "to" :: tb :: more) s1).bind
          fun s2 => execBlock h fuel lines (idx + (body.length + 2)) s2) ∧
    ∀ s1, forSpec h fuel var body (b - a + 1).toNat a s = .ok s1 →
      mapGet s1.functions "for" = none →
      execBlock h (fuel + 1) lines idx s =
        execBlock h fuel lines (idx + (body.length + 2)) s1 := by
  obtain ⟨hl, hd1⟩ := drop_eq_cons hd
  have hidx : idx + 1 + body.length + 1 = idx + (body.length + 2) := by omega
  have hrun : execBlock h (fuel + 1) lines idx s =
      ((forSpec h fuel var body (b - a + 1).toNat a s).bind fun s1 =>
        (secCall h (execBlock h fuel) ("for" :: var :: "=" :: ta :: "to" :: tb :: more) s1).bind
          fun s2 => execBlock h fuel lines (idx + (body.length + 2)) s2) := by
    rw [execBlock, hl]
    simp only [ht]
    rw [if_neg (show ¬ ("for" = "end") by decide), execLine_for]
    simp only [secFor, and_self, if_true, evalInt, ha, hb, Res.bind_ok]
    rw [forLoop_body h fuel lines idx var b body endLine rest hd1 hbody hend
        hhi (b - a + 1).toNat fuel a s rfl hlo hfuel,
      skipToEnd_loop lines idx forLine "for" _ body endLine rest hd ht (by decide)
        hbody hend]
    simp only [Res.bind_assoc, Res.bind_ok, hidx]
  refine ⟨hrun, ?_⟩
  intro s1 hs1 hfn
  rw [hrun, hs1, Res.bind_ok, secCall_skip h _ "for" _ s1 hfn, Res.bind_ok]

/-- Claim C6, amended, at `forProg`: two passes with `i` set to 1 and 2
although the body assigns 10 to `i` and calls a function, then the line after
`end`. -/
theorem for_loop_runs_range_witness :
    forSpec demoHost 6 "i" ["print \"i=$\x7bi\x7d\"", "let i = 10", "hi"] (2 - 1 + 1 : Int).toNat 1
        hiState =
      .ok { hiState with
            mutables := [("i", .int 10)], out := ["i=1\n", "hi\n", "i=2\n", "hi\n"] } ∧
    execBlock demoHost (6 + 1) forProg 3 hiState =
      execBlock demoHost 6 forProg
        (3 + (["print \"i=$\x7bi\x7d\"", "let i = 10", ("hi" : String)].length + 2))
        { hiState with
          mutables := [("i", .int 10)], out := ["i=1\n", "hi\n", "i=2\n", "hi\n"] } ∧
    execute demoHost 10 forProg (State.init []) =
      .ok { hiState with
            mutables := [("i", .int 10)],
            out := ["i=1\n", "hi\n", "i=2\n", "hi\n", "z\n"] } :=
  ⟨by decide,
   (for_loop_runs_range demoHost 6 forProg 3 hiState "for i = 1 to 2" "i" "1" "2" []
      ["print \"i=$\x7bi\x7d\"", "let i = 10", "hi"] "end" ["print \"z\""] 1 2
      (by decide) (by decide) (by decide) (by decide) (by decide) (by decide) (by decide)
      (by decide) (by decide)).2 _ (by decide) (by decide),
   by decide⟩

/-! ## C7: `repeat` -/

/-- The counting loop of `repeat` over a flat body is `repeatSpec`. -/
theorem repeatLoop_body (h : Host) (fuel : Nat) (lines : List String) (idx : Nat)
    (body : List String) (endLine : String) (rest : List String)
    (hd : lines.drop (idx + 1) = body ++ endLine :: rest)
    (hb : ∀ l ∈ body, stmtLine l = true)
    (hend : (tokenize endLine).head? = some "end") (n : Nat) (s : State) :
    repeatLoop (execBlock h fuel) lines idx n s = repeatSpec h fuel body n s := by
  induction n generalizing s with
  | zero => rfl
  | succ n ih =>
    rw [repeatLoop,
      execBlock_body h lines body endLine rest fuel (idx + 1) s hd
        (fun l hl => stmtLine_walkLine (hb l hl)) hend]
    simp only [repeatSpec, Res.bind_assoc, Res.bind_ok]
    congr 1; funext s1
    exact ih s1

/-- Claim C7 as stated fails in three ways. With a function registered under
the name `repeat` the function call block runs on the loop line after the
passes: here it indexes past the arguments and the run fails instead of
resuming after `end`. A body with a line without tokens makes the skip loop
fail after the passes. A body statement that fails ends the run in the first
pass. -/
theorem repeat_fails_with_function_named_repeat :
    execute demoHost 8 repeatFuncProg (State.init []) = .panic ∧
    (¬ ∃ (fuel : Nat) (s' : State),
      execute demoHost fuel repeatFuncProg (State.init []) = .ok s') ∧
    execute demoHost 8 repeatBlankProg (State.init []) = .panic ∧
    execute demoHost 8 repeatNewProg (State.init []) = .panic :=
  ⟨by decide, execute_panic_never_ok demoHost 8 repeatFuncProg (State.init []) (by decide),
   by decide, by decide⟩

/-- Claim C7, amended: `repeat n` with a flat body of statement lines. When
the token `n` parses as the integer `k`, the loop line makes `k` passes over
the body and nothing else (`repeatSpec`: no loop variable is bound; a negative
`k` gives no pass), then the function call block looks up the name `repeat`,
and the main loop goes on with the line after `end`; when no function is
registered under `repeat` after the passes, the main loop goes on there in
the very state the passes left. When `n` does not parse, the line
`Invalid repeat count: n` is written, no pass is made, and the same holds. -/
theorem repeat_runs_count (h : Host) (fuel : Nat) (lines : List String) (idx : Nat)
    (s : State) (repLine n : String) (more body : List String) (endLine : String)
    (rest : List String)
    (hd : lines.drop idx = repLine :: (body ++ endLine :: rest))
    (ht : tokenize repLine = "repeat" :: n :: more)
    (hbody : ∀ l ∈ body, stmtLine l = true)
    (hend : (tokenize endLine).head? = some "end") :
    (∀ k : Int, atoi n.data = some k →
      execBlock h (fuel + 1) lines idx s =
        ((repeatSpec h fuel body k.toNat s).bind fun s1 =>
          (secCall h (execBlock h fuel) ("repeat" :: n :: more) s1).bind fun s2 =>
            execBlock h fuel lines (idx + (body.length + 2)) s2) ∧
      ∀ s1, repeatSpec h fuel body k.toNat s = .ok s1 →
        mapGet s1.functions "repeat" = none →
        execBlock h (fuel + 1) lines idx s =
          execBlock h fuel lines (idx + (body.length + 2)) s1) ∧
    (atoi n.data = none →
      execBlock h (fuel + 1) lines idx s =
        ((secCall h (execBlock h fuel) ("repeat" :: n :: more)
            { s with out := s.out ++ ["Invalid repeat count: " ++ n ++ "\n"] }).bind fun s2 =>
          execBlock h fuel lines (idx + (body.length + 2)) s2) ∧
      (mapGet s.functions "repeat" = none →
        execBlock h (fuel + 1) lines idx s =
          execBlock h fuel lines (idx + (body.length + 2))
            { s with out := s.out ++ ["Invalid repeat count: " ++ n ++ "\n"] })) := by
  obtain ⟨hl, hd1⟩ := drop_eq_cons hd
  have hskip := skipToEnd_loop lines idx repLine "repeat" _ body endLine rest hd ht
    (by decide) hbody hend
  have hstart : execBlock h (fuel + 1) lines idx s =
      ((secRepeat (execBlock h fuel) lines idx ("repeat" :: n :: more) s).bind fun r =>
        (secCall h (execBlock h fuel) ("repeat" :: n :: more) r.2).bind fun s' =>
          .ok (r.1 + 1, s')).bind fun r => execBlock h fuel lines r.1 r.2 := by
    rw [execBlock, hl]
    simp only [ht]
    rw [if_neg (show ¬ ("repeat" = "end") by decide), execLine_repeat]
  have hidx : idx + 1 + body.length + 1 = idx + (body.length + 2) := by omega
  constructor
  · intro k hk
    have hrun : execBlock h (fuel + 1) lines idx s =
        ((repeatSpec h fuel body k.toNat s).bind fun s1 =>
          (secCall h (execBlock h fuel) ("repeat" :: n :: more) s1).bind fun s2 =>
            execBlock h fuel lines (idx + (body.length + 2)) s2) := by
      rw [hstart]
      simp only [secRepeat, if_true, hk, hskip]
      rw [repeatLoop_body h fuel lines idx body endLine rest hd1 hbody hend k.toNat s]
      simp only [Res.bind_assoc, Res.bind_ok, hidx]
    refine ⟨hrun, ?_⟩
    intro s1 hs1 hfn
    rw [hrun, hs1, Res.bind_ok, secCall_skip h _ "repeat" _ s1 hfn, Res.bind_ok]
  · intro hk
    have hrun : execBlock h (fuel + 1) lines idx s =
        ((secCall h (execBlock h fuel) ("repeat" :: n :: more)
            { s with out := s.out ++ ["Invalid repeat count: " ++ n ++ "\n"] }).bind fun s2 =>
          execBlock h fuel lines (idx + (body.length + 2)) s2) := by
      rw [hstart]
      simp only [secRepeat, if_true, hk, hskip, Res.bind_ok, println, Res.bind_assoc, hidx,
        String.append_assoc]
    refine ⟨hrun, ?_⟩
    intro hfn
    rw [hrun, secCall_skip h _ "repeat" _ _ (by exact hfn), Res.bind_ok]

/-- Claim C7, amended, at `repeatProg` (two passes of a body that prints and
calls a function) and at `repeatBadProg` (the count `many` is reported and
the body is not run). -/
theorem repeat_runs_count_witness :
    (repeatSpec demoHost 5 ["print \"x\"", "hi"] (2 : Int).toNat hiState =
        .ok { hiState with out := ["x\n", "hi\n", "x\n", "hi\n"] } ∧
      execBlock demoHost (5 + 1) repeatProg 3 hiState =
        execBlock demoHost 5 repeatProg (3 + (["print \"x\"", ("hi" : String)].length + 2))
          { hiState with out := ["x\n", "hi\n", "x\n", "hi\n"] } ∧
      execute demoHost 9 repeatProg (State.init []) =
        .ok { hiState with out := ["x\n", "hi\n", "x\n", "hi\n", "z\n"] }) ∧
    execBlock demoHost (2 + 1) repeatBadProg 0 (State.init []) =
      execBlock demoHost 2 repeatBadProg (0 + ([("print \"x\"" : String)].length + 2))
        { State.init [] with
          out := (State.init []).out ++ ["Invalid repeat count: " ++ "many" ++ "\n"] } ∧
    execute demoHost 3 repeatBadProg (State.init []) =
      .ok { State.init [] with out := ["Invalid repeat count: many\n", "z\n"] } :=
  ⟨⟨by decide,
    ((repeat_runs_count demoHost 5 repeatProg 3 hiState "repeat 2" "2" []
      ["print \"x\"", "hi"] "end" ["print \"z\""] (by decide) (by decide) (by decide)
      (by decide)).1 2 (by decide)).2 _ (by decide) (by decide),
    by decide⟩,
   ((repeat_runs_count demoHost 2 repeatBadProg 0 (State.init []) "repeat many" "many" []
      ["print \"x\""] "end" ["print \"z\""] (by decide) (by decide) (by decide)
      (by decide)).2 (by decide)).2 (by decide),
   by decide⟩

/-! ## C8: `while` and `loopuntil` -/

/-- Claim C8 as stated fails in three ways. With a function registered under
the loop keyword the function call block runs on the loop line after the
loop: for `while` and for `loopuntil` alike it indexes past the arguments
here and the run fails instead of resuming after `end`. A body with a line
without tokens makes the skip loop fail. A body statement of `loopuntil` that
fails ends the run in the first pass. -/
theorem loop_fails_with_function_named_keyword :
    execute demoHost 8 whileFuncProg (State.init []) = .panic ∧
    (¬ ∃ (fuel : Nat) (s' : State),
      execute demoHost fuel whileFuncProg (State.init []) = .ok s') ∧
    execute demoHost 8 untilFuncProg (State.init []) = .panic ∧
    execute demoHost 8 whileBlankProg (State.init []) = .panic ∧
    execute demoHost 8 untilNewProg (State.init []) = .panic :=
  ⟨by decide, execute_panic_never_ok demoHost 8 whileFuncProg (State.init []) (by decide),
   by decide, by decide, by decide⟩

/-- Claim C8, amended: a loop line `kw c` with a flat body of statement
lines. For `while`, a condition that evaluates to the integer 0 at entry
means no pass: the function call block looks up the name `while`, and the
main loop goes on with the line after `end`; when no function is registered
under `while`, it goes on there with the state unchanged. For `loopuntil`, a
condition that evaluates to a nonzero integer at entry and that the body does
not change means exactly one pass over the body; then the function call block
looks up the name `loopuntil`, and the main loop goes on with the line after
`end`; when no function is registered under `loopuntil` after the pass, it
goes on there in the very state the pass left. -/
theorem pretest_posttest (h : Host) (fuel : Nat) (lines : List String) (idx : Nat)
    (s : State) (loopLine kw c : String) (more body : List String) (endLine : String)
    (rest : List String)
    (hd : lines.drop idx = loopLine :: (body ++ endLine :: rest))
    (ht : tokenize loopLine = kw :: c :: more)
    (hbody : ∀ l ∈ body, stmtLine l = true)
    (hend : (tokenize endLine).head? = some "end")
    (hfuel : 0 < fuel) :
    (kw = "while" → evalExpr h s c = .ok (.int 0) →
      execBlock h (fuel + 1) lines idx s =
        ((secCall h (execBlock h fuel) (kw :: c :: more) s).bind fun s2 =>
          execBlock h fuel lines (idx + (body.length + 2)) s2) ∧
      (mapGet s.functions kw = none →
        execBlock h (fuel + 1) lines idx s =
          execBlock h fuel lines (idx + (body.length + 2)) s)) ∧
    (kw = "loopuntil" → ∀ k : Int, k ≠ 0 → evalExpr h s c = .ok (.int k) →
      (∀ s1, runBody h fuel body s = .ok s1 → evalExpr h s1 c = evalExpr h s c) →
      execBlock h (fuel + 1) lines idx s =
        ((runBody h fuel body s).bind fun s1 =>
          (secCall h (execBlock h fuel) (kw :: c :: more) s1).bind fun s2 =>
            execBlock h fuel lines (idx + (body.length + 2)) s2) ∧
      ∀ s1, runBody h fuel body s = .ok s1 → mapGet s1.functions kw = none →
        execBlock h (fuel + 1) lines idx s =
          execBlock h fuel lines (idx + (body.length + 2)) s1) := by
  obtain ⟨hl, hd1⟩ := drop_eq_cons hd
  obtain ⟨f, rfl⟩ : ∃ f, fuel = f + 1 := ⟨fuel - 1, by omega⟩
  have hidx : idx + 1 + body.length + 1 = idx + (body.length + 2) := by omega
  constructor
  · rintro rfl hc
    have hskip := skipToEnd_loop lines idx loopLine "while" _ body endLine rest hd
      ht (by decide) hbody hend
    have hrun : execBlock h (f + 1 + 1) lines idx s =
        ((secCall h (execBlock h (f + 1)) ("while" :: c :: more) s).bind fun s2 =>
          execBlock h (f + 1) lines (idx + (body.length + 2)) s2) := by
      rw [execBlock, hl]
      simp only [ht]
      rw [if_neg (show ¬ ("while" = "end") by decide), execLine_while]
      simp only [secWhile, if_true, whileLoop, evalInt, hc, Res.bind_ok, ne_eq,
        not_true_eq_false, if_false, hskip, Res.bind_assoc, hidx]
    refine ⟨hrun, ?_⟩
    intro hfn
    rw [hrun, secCall_skip h _ "while" _ s hfn, Res.bind_ok]
  · rintro rfl k hk hc hsame
    have hskip := skipToEnd_loop lines idx loopLine "loopuntil" _ body endLine rest
      hd ht (by decide) hbody hend
    have hrun : execBlock h (f + 1 + 1) lines idx s =
        ((runBody h (f + 1) body s).bind fun s1 =>
          (secCall h (execBlock h (f + 1)) ("loopuntil" :: c :: more) s1).bind fun s2 =>
            execBlock h (f + 1) lines (idx + (body.length + 2)) s2) := by
      rw [execBlock, hl]
      simp only [ht]
      rw [if_neg (show ¬ ("loopuntil" = "end") by decide), execLine_loopuntil]
      simp only [secLoopUntil, if_true, untilLoop]
      rw [execBlock_body h lines body endLine rest (f + 1) (idx + 1) s hd1
        (fun l hl => stmtLine_walkLine (hbody l hl)) hend]
      cases hr : runBody h (f + 1) body s with
      | ok s1 =>
        simp only [Res.bind_ok, evalInt, hsame s1 hr, hc, ne_eq, hk, not_false_eq_true,
          if_true, hskip, Res.bind_assoc, hidx]
      | panic => rfl
      | timeout => rfl
    refine ⟨hrun, ?_⟩
    intro s1 hs1 hfn
    rw [hrun, hs1, Res.bind_ok, secCall_skip h _ "loopuntil" _ s1 hfn, Res.bind_ok]

/-- Claim C8, amended, at `whileProg` (no pass, nothing printed by the loop)
and at `untilProg` (one pass although the condition is nonzero from the
start); the bodies print and call a function. -/
theorem pretest_posttest_witness :
    (execBlock demoHost (5 + 1) whileProg 3 hiState =
        execBlock demoHost 5 whileProg (3 + (["print \"x\"", ("hi" : String)].length + 2))
          hiState ∧
      execute demoHost 9 whileProg (State.init []) = .ok { hiState with out := ["z\n"] }) ∧
    (runBody demoHost 5 ["print \"x\"", "hi"] hiState =
        .ok { hiState with out := ["x\n", "hi\n"] } ∧
      execBlock demoHost (5 + 1) untilProg 3 hiState =
        execBlock demoHost 5 untilProg (3 + (["print \"x\"", ("hi" : String)].length + 2))
          { hiState with out := ["x\n", "hi\n"] } ∧
      execute demoHost 9 untilProg (State.init []) =
        .ok { hiState with out := ["x\n", "hi\n", "z\n"] }) :=
  ⟨⟨((pretest_posttest demoHost 5 whileProg 3 hiState "while 0" "while" "0" []
      ["print \"x\"", "hi"] "end" ["print \"z\""] (by decide) (by decide) (by decide)
      (by decide) (by decide)).1 rfl (by decide)).2 (by decide),
    by decide⟩,
   by decide,
   ((pretest_posttest demoHost 5 untilProg 3 hiState "loopuntil 1" "loopuntil" "1" []
      ["print \"x\"", "hi"] "end" ["print \"z\""] (by decide) (by decide) (by decide)
      (by decide) (by decide)).2 rfl 1 (by decide) (by decide)
      (fun s1 hs1 => by
        have h2 : runBody demoHost 5 ["print \"x\"", "hi"] hiState =
            .ok { hiState with out := ["x\n", "hi\n"] } := by decide
        rw [h2] at hs1
        have h1 : s1 = { hiState with out := ["x\n", "hi\n"] } := (Res.ok.inj hs1).symm
        subst h1
        decide)).2 _ (by decide) (by decide),
   by decide⟩

/-! ## C9: `include` -/

theorem execLine_include (h : Host) (rec : Exec) (fuel : Nat) (lines : List String)
    (idx : Nat) (args : List String) (s : State) :
    execLine h rec fuel lines idx ("include" :: args) s =
      (secCall h rec ("include" :: args) s).bind fun s' =>
        secInclude h rec idx ("include" :: args) s' := by
  unfold execLine
  simp only [secPrint_skip h "include" args _ (by decide),
    secLet_skip h "include" args _ (by decide),
    secConst_skip h "include" args _ (by decide),
    secInput_skip h "include" args _ (by decide),
    secClass_skip _ _ _ "include" args _ (by decide),
    secNew_skip h _ "include" args _ (by decide),
    secSleep_skip h "include" args _ (by decide),
    secIf_skip h _ _ _ "include" args _ (by decide),
    secSwitch_skip h _ _ _ _ "include" args _ (by decide),
    secFor_skip h _ _ _ _ "include" args _ (by decide),
    secRepeat_skip _ _ _ "include" args _ (by decide),
    secWhile_skip h _ _ _ _ "include" args _ (by decide),
    secLoopUntil_skip h _ _ _ _ "include" args _ (by decide),
    secFunc_skip _ _ "include" args _ (by decide),
    secMethodCall_skip _ "include" args _ (by decide), Res.bind_ok]

/-- The file that includes itself never finishes: every pass of the loop body
starts with an empty `includedFiles`, so the file is read and walked again. -/
theorem selfLines_never_ok (fuel : Nat) (s : State) (r : Nat × State)
    (hs : s.functions = []) : execBlock demoHost fuel selfLines 0 s ≠ .ok r := by
  induction fuel using Nat.strong_induction_on generalizing s r with
  | _ fuel ih =>
    intro hr
    cases fuel with
    | zero => simp [execBlock] at hr
    | succ n =>
      rw [execBlock_plain demoHost n selfLines 0 "print \"self\"" s (by decide)
        (by rw [hs]; decide)] at hr
      obtain ⟨s1, h1, hr⟩ := Res.bind_eq_ok hr
      have hs1 : s1.functions = [] := by rw [flatStep_functions h1]; exact hs
      cases n with
      | zero => simp [execBlock] at hr
      | succ m =>
        have hl : selfLines[0 + 1]? = some "include \"self.fal\"" := by decide
        have ht : tokenize "include \"self.fal\"" = ["include", "\"self.fal\""] := by decide
        have hp : String.mk (trimQuotes "\"self.fal\"".data) = "self.fal" := by decide
        have hfile : demoHost.readFile "self.fal" = .ok selfLines := by rfl
        rw [execBlock, hl] at hr
        simp only [ht] at hr
        rw [if_neg (by decide), execLine_include,
          secCall_skip _ _ _ _ _ (by rw [hs1]; rfl)] at hr
        simp only [Res.bind_ok, secInclude, if_true, hp, List.not_mem_nil, if_false, hfile]
          at hr
        obtain ⟨r1, hr, -⟩ := Res.bind_eq_ok hr
        obtain ⟨r2, hr, -⟩ := Res.bind_eq_ok hr
        exact ih m (by omega) s1 r2 hs1 hr

/-- Claim C9, evaluated on the code: two `include` lines for the same path run
the file twice (`lib` is printed twice), and including a file that includes
itself never returns, whatever the fuel. The map `includedFiles` is declared
inside the loop body of `execBlock`, so the membership test always fails. -/
theorem include_twice_runs_twice :
    execute demoHost 4 includeTwiceProg (State.init []) =
      .ok { State.init [] with out := ["lib\n", "lib\n"] } ∧
    ∀ (fuel : Nat) (s' : State),
      execute demoHost fuel includeSelfProg (State.init []) ≠ .ok s' := by
  refine ⟨by decide, ?_⟩
  intro fuel s' hr
  unfold execute at hr
  obtain ⟨r, hr, -⟩ := Res.bind_eq_ok hr
  cases fuel with
  | zero => simp [execBlock] at hr
  | succ n =>
    have hl : includeSelfProg[0]? = some "include \"self.fal\"" := by decide
    have ht : tokenize "include \"self.fal\"" = ["include", "\"self.fal\""] := by decide
    have hp : String.mk (trimQuotes "\"self.fal\"".data) = "self.fal" := by decide
    have hfile : demoHost.readFile "self.fal" = .ok selfLines := by rfl
    rw [execBlock, hl] at hr
    simp only [ht] at hr
    rw [if_neg (by decide), execLine_include, secCall_skip _ _ _ _ _ (by rfl)] at hr
    simp only [Res.bind_ok, secInclude, if_true, hp, List.not_mem_nil, if_false, hfile] at hr
    obtain ⟨r1, hr, -⟩ := Res.bind_eq_ok hr
    obtain ⟨r2, hr, -⟩ := Res.bind_eq_ok hr
    exact selfLines_never_ok n (State.init []) r2 rfl hr

/-! ## C10: `const` twice -/

/-- What the dispatcher does on a well-formed `const` line. -/
theorem flatStep_const (h : Host) (x e : String) (more : List String) (s : State) :
    flatStep h ("const" :: x :: "=" :: e :: more) s =
      (evalExpr h s e).bind fun v =>
        .ok { s with constants := mapSet s.constants x v } := by
  unfold flatStep
  rw [secPrint_skip h "const" _ s (by decide), Res.bind_ok,
    secLet_skip h "const" _ s (by decide), Res.bind_ok]
  simp only [secConst, and_self, if_true]
  cases evalExpr h s e with
  | ok v =>
    simp only [Res.bind_ok]
    rw [secInput_skip h "const" _ _ (by decide), Res.bind_ok,
      secSleep_skip h "const" _ _ (by decide)]
  | panic => rfl
  | timeout => rfl

/-- Claim C10 as stated fails: after `const x = 1` and `const x = 2` the
constant scope binds `x` to 2, not to 1. With a function registered under the
name `const` the function call block runs on the `const` line as well: here
it indexes past the arguments and the run fails. An expression that is the
one-character token `"` fails the run too. -/
theorem const_twice_overwrites :
    execute demoHost 3 constProg (State.init []) =
      .ok { State.init [] with constants := [("x", .int 2)] } ∧
    mapGet [("x", Value.int 2)] "x" ≠ some (.int 1) ∧
    execute demoHost 8 constFuncProg (State.init []) = .panic ∧
    execute demoHost 8 constQuoteProg (State.init []) = .panic := by
  decide

/-- Claim C10, amended: with no function registered under the name `const`
and expressions that evaluate, after `const x = e1` and then `const x = e2`
the constant scope binds `x` to the value of `e2` (evaluated after the first
statement); the second `const` overwrites the binding, nothing guards it. -/
theorem const_second_binding_wins (h : Host) (fuel : Nat) (lines : List String) (idx : Nat)
    (s : State) (l1 l2 x e1 e2 : String) (more1 more2 rest : List String) (v1 v2 : Value)
    (hd : lines.drop idx = l1 :: l2 :: rest)
    (ht1 : tokenize l1 = "const" :: x :: "=" :: e1 :: more1)
    (ht2 : tokenize l2 = "const" :: x :: "=" :: e2 :: more2)
    (hfn : mapGet s.functions "const" = none)
    (hv1 : evalExpr h s e1 = .ok v1)
    (hv2 : evalExpr h { s with constants := mapSet s.constants x v1 } e2 = .ok v2) :
    execBlock h (fuel + 2) lines idx s =
      execBlock h fuel lines (idx + 2)
        { s with constants := mapSet (mapSet s.constants x v1) x v2 } ∧
    mapGet (mapSet (mapSet s.constants x v1) x v2) x = some v2 := by
  refine ⟨?_, mapGet_mapSet_same _ _ _⟩
  obtain ⟨hl1, hd1⟩ := drop_eq_cons hd
  obtain ⟨hl2, -⟩ := drop_eq_cons hd1
  have hp1 : plain s.functions (tokenize l1) = true := by
    rw [ht1]; simp [plain, blockWords, hfn]
  rw [execBlock_plain h (fuel + 1) lines idx l1 s hl1 hp1, ht1, flatStep_const, hv1]
  simp only [Res.bind_ok]
  have hp2 : plain ({ s with constants := mapSet s.constants x v1 } : State).functions
      (tokenize l2) = true := by
    rw [ht2]; simp [plain, blockWords, hfn]
  rw [execBlock_plain h fuel lines (idx + 1) l2 _ hl2 hp2, ht2, flatStep_const, hv2]
  simp only [Res.bind_ok]

/-- Claim C10, amended, at `constProg`: `x` ends up bound to 2, and the run
returns in that state. -/
theorem const_second_binding_wins_witness :
    (execBlock demoHost (1 + 2) constProg 0 (State.init []) =
        execBlock demoHost 1 constProg (0 + 2)
          { State.init [] with
            constants := mapSet (mapSet (State.init []).constants "x" (.int 1)) "x" (.int 2) } ∧
      mapGet (mapSet (mapSet (State.init []).constants "x" (.int 1)) "x" (.int 2)) "x" =
        some (.int 2)) ∧
    execBlock demoHost (1 + 2) constProg 0 (State.init []) =
      .ok (2, { State.init [] with constants := [("x", .int 2)] }) :=
  ⟨const_second_binding_wins demoHost 1 constProg 0 (State.init []) "const x = 1"
    "const x = 2" "x" "1" "2" [] [] [] (.int 1) (.int 2) (by decide) (by decide) (by decide)
    (by decide) (by decide) (by decide), by decide⟩

/-! ## C11: the rules of `evalExpr` -/

theorem quoted_short {e : List Char} (hq : quoted e = true) (hl : e.length < 2) :
    e = ['"'] := by
  match e, hq, hl with
  | [], hq, _ => simp [quoted] at hq
  | [c], hq, _ => simp [quoted] at hq; rw [hq]
  | _ :: _ :: _, _, hl => simp only [List.length_cons] at hl; omega

/-- On every text but the one-character text `"`, `evalExpr` gives a value,
and it is the value of the five rules in their order. -/
theorem evalExpr_eq_rules (h : Host) (s : State) (expr : String)
    (hne : trimSpace expr.data ≠ ['"']) :
    evalExpr h s expr = .ok (evalRules h s (trimSpace expr.data)) := by
  unfold evalExpr evalRules
  simp only []
  by_cases hq : quoted (trimSpace expr.data) = true
  · have hlen : 2 ≤ (trimSpace expr.data).length := by
      by_contra hc
      exact hne (quoted_short hq (by omega))
    simp [hq, hlen, stripQuotes, show ¬ (trimSpace expr.data).length < 2 by omega]
  · have hq' : quoted (trimSpace expr.data) = false := by simpa using hq
    simp only [hq', Bool.false_eq_true, false_and, if_false]
    split <;> try rfl
    split <;> try rfl
    split <;> try rfl
    split <;> rfl

/-- On the one-character text `"` the slice `expr[1 : len(expr)-1]` has the
bounds `[1:0]`: `evalExpr` panics, in every state. -/
theorem evalExpr_lone_quote (h : Host) (s : State) (expr : String)
    (he : trimSpace expr.data = ['"']) : evalExpr h s expr = .panic := by
  unfold evalExpr
  simp only [he]
  rfl

/-- Claim C11, evaluated on the code: on the one-character text `"` the rules
say that a mutable binding of that name wins (`evalRules` gives 5 in
`quoteBoundState`), but `evalExpr` panics in the quote test before it looks at
any binding, and so does the program that binds `"` and reads it. This is the
defect of claim C20, met from the side of the rule order. -/
theorem evalExpr_rules_fail_on_lone_quote :
    evalRules demoHost quoteBoundState (trimSpace "\"".data) = .int 5 ∧
    evalExpr demoHost quoteBoundState "\"" = .panic ∧
    execBlock demoHost 1 quoteBoundProg 1 quoteBoundState = .panic ∧
    (∀ k : Nat, execute demoHost (2 + k) quoteBoundProg (State.init []) = .panic) := by
  refine ⟨by decide, by decide, by decide, fun k => ?_⟩
  rw [execute_stable demoHost 2 _ _ (by decide) k]; decide

/-! ## C20: quote stripping -/

/-- Claim C20, evaluated on the code: quote stripping is not total. For the
text `"` alone `evalExpr` panics in every state and for every host, the line
`print "` panics, and `evalExpr` panics on no other text. -/
theorem quote_stripping_panics_on_lone_quote :
    (∀ (h : Host) (s : State), evalExpr h s "\"" = .panic) ∧
    (∀ k : Nat, execute demoHost (1 + k) ["print \""] (State.init []) = .panic) ∧
    (∀ (h : Host) (s : State) (expr : String),
      evalExpr h s expr = .panic ↔ trimSpace expr.data = ['"']) := by
  refine ⟨fun h s => evalExpr_lone_quote h s _ (by decide), fun k => ?_, ?_⟩
  · rw [execute_stable demoHost 1 _ _ (by decide) k]; decide
  intro h s expr
  constructor
  · intro hp
    by_contra hne
    rw [evalExpr_eq_rules h s expr hne] at hp
    cases hp
  · exact evalExpr_lone_quote h s expr

/-! ## C12: integer literals and quoted text -/

theorem digit_toNat {c : Char} (hd : c.isDigit = true) : 48 ≤ c.toNat ∧ c.toNat ≤ 57 := by
  simp only [Char.isDigit, Bool.and_eq_true, decide_eq_true_eq, ge_iff_le] at hd
  have h1 : (48 : UInt32).toNat ≤ c.val.toNat := hd.1
  have h2 : c.val.toNat ≤ (57 : UInt32).toNat := hd.2
  exact ⟨h1, h2⟩

theorem isSpace_of_range {c : Char} (hc : 33 ≤ c.toNat ∧ c.toNat ≤ 126) :
    isSpace c = false := by
  simp only [isSpace, Bool.or_eq_false_iff, Bool.and_eq_false_iff, decide_eq_false_iff_not]
  omega

theorem dropWhile_none {α : Type} (p : α → Bool) (cs : List α)
    (hp : ∀ c ∈ cs, p c = false) : cs.dropWhile p = cs := by
  cases cs with
  | nil => rfl
  | cons c cs => simp [List.dropWhile, hp c (List.mem_cons_self _ _)]

/-- Text without white space is its own trimmed text. -/
theorem trimSpace_id (cs : List Char) (hp : ∀ c ∈ cs, isSpace c = false) :
    trimSpace cs = cs := by
  unfold trimSpace
  rw [dropWhile_none _ _ hp, dropWhile_none _ _ (fun c hc => hp c (List.mem_reverse.1 hc)),
    List.reverse_reverse]

theorem parseDigits_digits {cs : List Char} {acc n : Nat}
    (hr : parseDigits cs acc = some n) : ∀ c ∈ cs, c.isDigit = true := by
  induction cs generalizing acc with
  | nil => intro c hc; simp at hc
  | cons d ds ih =>
    simp only [parseDigits] at hr
    split at hr
    · rename_i hd
      intro c hc
      rcases List.mem_cons.1 hc with rfl | hc
      · exact hd
      · exact ih hr c hc
    · cases hr

/-- A text that `atoi` accepts consists of a sign and digits. -/
theorem atoi_chars {cs : List Char} {n : Int} (hr : atoi cs = some n) :
    ∀ c ∈ cs, 43 ≤ c.toNat ∧ c.toNat ≤ 57 := by
  unfold atoi at hr
  split at hr
  · cases hr
  · rename_i c ds
    have hdig : ∀ {l : List Char} {m : Nat}, parseDigits l 0 = some m →
        ∀ x ∈ l, 43 ≤ x.toNat ∧ x.toNat ≤ 57 := by
      intro l m hl x hx
      have := digit_toNat (parseDigits_digits hl x hx)
      omega
    split at hr
    · rename_i hc
      split at hr
      · cases hr
      · cases hp : parseDigits ds 0 with
        | none => simp [hp] at hr
        | some m =>
          intro x hx
          rcases List.mem_cons.1 hx with rfl | hx
          · rw [hc]; decide
          · exact hdig hp x hx
    · split at hr
      · rename_i hc
        split at hr
        · cases hr
        · cases hp : parseDigits ds 0 with
          | none => simp [hp] at hr
          | some m =>
            intro x hx
            rcases List.mem_cons.1 hx with rfl | hx
            · rw [hc]; decide
            · exact hdig hp x hx
      · cases hp : parseDigits (c :: ds) 0 with
        | none => simp [hp] at hr
        | some m => exact hdig hp

/-- An unbound text that `atoi` accepts evaluates to its integer. -/
theorem evalExpr_atoi (h : Host) (s : State) (u : String) (n : Int)
    (hn : atoi u.data = some n) (hm : mapGet s.mutables u = none)
    (hc : mapGet s.constants u = none) : evalExpr h s u = .ok (.int n) := by
  have hch := atoi_chars hn
  have htrim : trimSpace u.data = u.data :=
    trimSpace_id _ (fun c hc => isSpace_of_range (by have := hch c hc; omega))
  have hq : quoted u.data = false := by
    cases hu : u.data with
    | nil => rfl
    | cons c cs =>
      have h1 := hch c (by rw [hu]; exact List.mem_cons_self _ _)
      have hne : c ≠ '"' := by
        rintro rfl
        revert h1; decide
      simp [quoted, hne]
  unfold evalExpr
  simp only [htrim, hq, Bool.false_eq_true, if_false, hm, hc, hn]

theorem digitChar_digit (m : Nat) (hm : m < 10) :
    (Nat.digitChar m).isDigit = true ∧ (Nat.digitChar m).toNat - 48 = m := by
  interval_cases m <;> decide

theorem parseDigits_toDigitsCore (f n : Nat) (ds : List Char) (hf : n < f) :
    parseDigits (Nat.toDigitsCore 10 f n ds) 0 = parseDigits ds n := by
  induction f generalizing n ds with
  | zero => omega
  | succ f ih =>
    obtain ⟨hd, hv⟩ := digitChar_digit (n % 10) (Nat.mod_lt _ (by decide))
    simp only [Nat.toDigitsCore]
    split
    · simp only [parseDigits, hd, if_true, hv]
      congr 1; omega
    · rw [ih (n / 10) _ (by omega)]
      simp only [parseDigits, hd, if_true, hv]
      congr 1; omega

theorem toDigitsCore_head (f n : Nat) (ds : List Char) (hf : n < f) :
    ∃ c rest, Nat.toDigitsCore 10 f n ds = c :: rest ∧ c.isDigit = true := by
  induction f generalizing n ds with
  | zero => omega
  | succ f ih =>
    obtain ⟨hd, -⟩ := digitChar_digit (n % 10) (Nat.mod_lt _ (by decide))
    simp only [Nat.toDigitsCore]
    split
    · exact ⟨_, _, rfl, hd⟩
    · exact ih (n / 10) _ (by omega)

theorem parseDigits_repr (n : Nat) : parseDigits (Nat.repr n).data 0 = some n := by
  show parseDigits (Nat.toDigitsCore 10 (n + 1) n []) 0 = some n
  rw [parseDigits_toDigitsCore _ _ _ (by omega)]
  rfl

theorem repr_head (n : Nat) : ∃ c rest, (Nat.repr n).data = c :: rest ∧ c.isDigit = true :=
  toDigitsCore_head (n + 1) n [] (by omega)

/-- The decimal text of an integer of the 64-bit range is read back by `atoi`
as that integer. -/
theorem atoi_toString (n : Int) (hlo : -2 ^ 63 ≤ n) (hhi : n < 2 ^ 63) :
    atoi (toString n).data = some n := by
  cases n with
  | ofNat m =>
    show atoi (Nat.repr m).data = some (Int.ofNat m)
    obtain ⟨c, rest, hcr, hd⟩ := repr_head m
    have hp := parseDigits_repr m
    rw [hcr] at hp
    have h48 := digit_toNat hd
    have h1 : c ≠ '-' := by rintro rfl; revert h48; decide
    have h2 : c ≠ '+' := by rintro rfl; revert h48; decide
    have hm : m < 2 ^ 63 := by
      have : (m : Int) < 2 ^ 63 := hhi
      exact_mod_cast this
    rw [hcr]
    simp only [atoi, h1, h2, if_false, hp, Option.bind]
    rw [if_pos hm]
    rfl
  | negSucc m =>
    show atoi ("-" ++ Nat.repr (m + 1)).data = some (Int.negSucc m)
    obtain ⟨c, rest, hcr, -⟩ := repr_head (m + 1)
    have hp := parseDigits_repr (m + 1)
    have hm : m + 1 ≤ 2 ^ 63 := by
      have h1 : -(2 : Int) ^ 63 ≤ Int.negSucc m := hlo
      rw [Int.negSucc_eq] at h1
      have h2 : ((m : Int) + 1) ≤ 2 ^ 63 := by linarith
      exact_mod_cast h2
    have hdata : ("-" ++ Nat.repr (m + 1)).data = '-' :: (Nat.repr (m + 1)).data := by
      simp [String.data_append]
    have hne : (Nat.repr (m + 1)).data ≠ [] := by rw [hcr]; simp
    rw [hdata]
    simp only [atoi, if_true, hne, if_false, hp, Option.bind]
    rw [if_pos hm, Int.negSucc_eq]
    simp

/-- Text wrapped in one pair of double quotes evaluates to the text between
them, whatever the text and the state. -/
theorem evalExpr_quoted (h : Host) (s : State) (t : String) :
    evalExpr h s ("\"" ++ t ++ "\"") = .ok (.str t) := by
  have hdata : ("\"" ++ t ++ "\"").data = '"' :: (t.data ++ ['"']) := by
    simp [String.data_append]
  have hsp : isSpace '"' = false := by decide
  have htrim : trimSpace ('"' :: (t.data ++ ['"'])) = '"' :: (t.data ++ ['"']) := by
    unfold trimSpace
    have h1 : ('"' :: (t.data ++ ['"'])).dropWhile isSpace = '"' :: (t.data ++ ['"']) := by
      simp [List.dropWhile, hsp]
    have h2 : ('"' :: (t.data ++ ['"'])).reverse = '"' :: (t.data.reverse ++ ['"']) := by
      simp
    rw [h1, h2]
    have h3 : ('"' :: (t.data.reverse ++ ['"'])).dropWhile isSpace =
        '"' :: (t.data.reverse ++ ['"']) := by
      simp [List.dropWhile, hsp]
    rw [h3]
    simp
  have hq : quoted ('"' :: (t.data ++ ['"'])) = true := by
    have hlast : ('"' :: (t.data ++ ['"'])).getLast? = some '"' := by
      show (('"' :: t.data) ++ ['"']).getLast? = some '"'
      exact List.getLast?_concat _
    simp [quoted, hlast]
  have hstrip : stripQuotes ('"' :: (t.data ++ ['"'])) = .ok t.data := by
    simp [stripQuotes]
  unfold evalExpr
  simp only [hdata, htrim, hq, if_true, hstrip, Res.bind_ok]

/-- Claim C12 as stated fails in a state that binds the text of the literal
as a name: after `let 5 = 7` the text `5` evaluates to 7, because the lookup
in the mutable scope comes before the integer parse. -/
theorem literal_shadowed_by_binding :
    evalExpr demoHost fiveBoundState "5" = .ok (.int 7) ∧
    execute demoHost 3 fiveBoundProg (State.init []) =
      .ok { State.init [] with mutables := [("5", .int 7), ("y", .int 7)] } := by
  decide

/-- Claim C12, amended: for every integer `n` of the 64-bit range and every
state that binds the decimal text of `n` neither as a variable nor as a
constant, `evalExpr` on that text gives the integer `n`, and so does every
other unbound spelling that `strconv.Atoi` reads as `n`; and for every text
`t` and every state, `evalExpr` on `t` wrapped in one pair of double quotes
gives the string `t`. -/
theorem evalExpr_literals (h : Host) (s : State) (n : Int) (t : String)
    (hlo : -2 ^ 63 ≤ n) (hhi : n < 2 ^ 63)
    (hm : mapGet s.mutables (toString n) = none)
    (hc : mapGet s.constants (toString n) = none) :
    evalExpr h s (toString n) = .ok (.int n) ∧
    (∀ u : String, atoi u.data = some n → mapGet s.mutables u = none →
      mapGet s.constants u = none → evalExpr h s u = .ok (.int n)) ∧
    evalExpr h s ("\"" ++ t ++ "\"") = .ok (.str t) :=
  ⟨evalExpr_atoi h s _ n (atoi_toString n hlo hhi) hm hc,
   fun u hu hmu hcu => evalExpr_atoi h s u n hu hmu hcu,
   evalExpr_quoted h s t⟩

/-- Claim C12, amended, at the literal `-42`, its spelling `-042`, and the
text `say "hi"` in quotes, in a state that binds `x`. -/
theorem evalExpr_literals_witness :
    evalExpr demoHost scopeState (toString (-42 : Int)) = .ok (.int (-42)) ∧
    evalExpr demoHost scopeState "-042" = .ok (.int (-42)) ∧
    evalExpr demoHost scopeState ("\"" ++ "say \"hi\"" ++ "\"") = .ok (.str "say \"hi\"") :=
  have hw := evalExpr_literals demoHost scopeState (-42) "say \"hi\"" (by decide) (by decide)
    (by decide) (by decide)
  ⟨hw.1, hw.2.1 "-042" (by decide) (by decide) (by decide), hw.2.2⟩

/-! ## C13: `let` -/

theorem identChar_toNat {c : Char} (hc : isIdentChar c = true) :
    48 ≤ c.toNat ∧ c.toNat ≤ 122 := by
  simp only [isIdentChar, Char.isAlphanum, Char.isAlpha, Char.isUpper, Char.isLower,
    Char.isDigit, Bool.or_eq_true, Bool.and_eq_true, decide_eq_true_eq, ge_iff_le] at hc
  rcases hc with ((⟨h1, h2⟩ | ⟨h1, h2⟩) | ⟨h1, h2⟩) | h
  · have a1 : 65 ≤ c.toNat := h1
    have a2 : c.toNat ≤ 90 := h2
    omega
  · have a1 : 97 ≤ c.toNat := h1
    have a2 : c.toNat ≤ 122 := h2
    omega
  · have a1 : 48 ≤ c.toNat := h1
    have a2 : c.toNat ≤ 57 := h2
    omega
  · rw [h]; decide

theorem identStart_identChar {c : Char} (hc : isIdentStart c = true) :
    isIdentChar c = true := by
  simp only [isIdentStart, isIdentChar, Char.isAlphanum, Bool.or_eq_true] at hc ⊢
  rcases hc with h | h
  · exact Or.inl (Or.inl h)
  · exact Or.inr h

theorem isIdent_chars {cs : List Char} (hi : isIdent cs = true) :
    ∀ c ∈ cs, isIdentChar c = true := by
  cases cs with
  | nil => simp [isIdent] at hi
  | cons c rest =>
    simp only [isIdent, Bool.and_eq_true, List.all_eq_true] at hi
    intro d hd
    rcases List.mem_cons.1 hd with rfl | hd
    · exact identStart_identChar hi.1
    · exact hi.2 d hd

/-- An identifier that is bound in the mutable scope evaluates to its value. -/
theorem evalExpr_var (h : Host) (s : State) (x : String) (v : Value)
    (hx : isIdent x.data = true) (hm : mapGet s.mutables x = some v) :
    evalExpr h s x = .ok v := by
  have hch := isIdent_chars hx
  have htrim : trimSpace x.data = x.data :=
    trimSpace_id _ (fun c hc => isSpace_of_range (by have := identChar_toNat (hch c hc); omega))
  have hq : quoted x.data = false := by
    cases hu : x.data with
    | nil => rfl
    | cons c cs =>
      have h1 := identChar_toNat (hch c (by rw [hu]; exact List.mem_cons_self _ _))
      have hne : c ≠ '"' := by
        rintro rfl
        revert h1; decide
      simp [quoted, hne]
  unfold evalExpr
  simp only [htrim, hq, Bool.false_eq_true, if_false, hm]

/-- What the dispatcher does on a well-formed `let` line. -/
theorem flatStep_let (h : Host) (x e : String) (more : List String) (s : State) :
    flatStep h ("let" :: x :: "=" :: e :: more) s =
      (evalExpr h s e).bind fun v =>
        .ok { s with mutables := mapSet s.mutables x v } := by
  unfold flatStep
  rw [secPrint_skip h "let" _ s (by decide), Res.bind_ok]
  simp only [secLet, and_self, if_true]
  cases evalExpr h s e with
  | ok v =>
    simp only [Res.bind_ok]
    rw [secConst_skip h "let" _ _ (by decide), Res.bind_ok,
      secInput_skip h "let" _ _ (by decide), Res.bind_ok,
      secSleep_skip h "let" _ _ (by decide)]
  | panic => rfl
  | timeout => rfl

/-- The main loop on a well-formed `let` line whose expression evaluates. -/
theorem execBlock_let (h : Host) (fuel : Nat) (lines : List String) (idx : Nat) (s : State)
    (l x e : String) (more : List String) (v : Value)
    (hl : lines[idx]? = some l) (ht : tokenize l = "let" :: x :: "=" :: e :: more)
    (hfn : mapGet s.functions "let" = none) (hv : evalExpr h s e = .ok v) :
    execBlock h (fuel + 1) lines idx s =
      execBlock h fuel lines (idx + 1) { s with mutables := mapSet s.mutables x v } := by
  have hp : plain s.functions (tokenize l) = true := by
    rw [ht]; simp [plain, blockWords, hfn]
  rw [execBlock_plain h fuel lines idx l s hl hp, ht, flatStep_let, hv]
  simp only [Res.bind_ok]

/-- Claim C13 as stated fails with a function registered under the name
`let`: the function call block runs it on the `let` line after the binding.
In `letFuncProg` its body binds the constant `k`, so the line `let x = 5`
changes the constant scope; in `letFuncWideProg` the call indexes past the
arguments and the run fails. An expression that is the one-character token
`"` fails the run too. -/
theorem let_runs_function_named_let :
    execute demoHost 8 letFuncProg (State.init []) =
      .ok { State.init [] with
            mutables := [("x", .int 5)], constants := [("k", .int 1)],
            functions := [("let", ⟨["a", "b", "c"], ["const k = 1"]⟩)] } ∧
    execute demoHost 8 (letFuncProg.take 3) (State.init []) =
      .ok { State.init [] with
            functions := [("let", ⟨["a", "b", "c"], ["const k = 1"]⟩)] } ∧
    execute demoHost 8 letFuncWideProg (State.init []) = .panic ∧
    execute demoHost 8 letQuoteProg (State.init []) = .panic := by
  decide

/-- Claim C13, amended: a line `let x = e1` for an identifier `x` and an
expression that evaluates to `v1`, with no function registered under the name
`let`. The main loop goes on with the next line in the state
that differs from the old one only in the mutable binding of `x`: there
`evalExpr` on `x` gives `v1`, every other mutable binding and the whole
constant scope are as before. When the next line is `let x = e2` and `e2`
evaluates to `v2` at that point, `evalExpr` on `x` gives `v2` afterwards, and
again nothing else has changed. -/
theorem let_binds_and_rebinds (h : Host) (fuel : Nat) (lines : List String) (idx : Nat)
    (s : State) (l1 x e1 : String) (more1 rest : List String) (v1 : Value)
    (hd : lines.drop idx = l1 :: rest)
    (ht1 : tokenize l1 = "let" :: x :: "=" :: e1 :: more1)
    (hx : isIdent x.data = true)
    (hfn : mapGet s.functions "let" = none)
    (hv1 : evalExpr h s e1 = .ok v1) :
    (execBlock h (fuel + 2) lines idx s =
        execBlock h (fuel + 1) lines (idx + 1)
          { s with mutables := mapSet s.mutables x v1 } ∧
      evalExpr h { s with mutables := mapSet s.mutables x v1 } x = .ok v1 ∧
      (∀ y, y ≠ x → mapGet (mapSet s.mutables x v1) y = mapGet s.mutables y) ∧
      ({ s with mutables := mapSet s.mutables x v1 } : State).constants = s.constants) ∧
    ∀ (l2 e2 : String) (more2 rest2 : List String) (v2 : Value),
      rest = l2 :: rest2 → tokenize l2 = "let" :: x :: "=" :: e2 :: more2 →
      evalExpr h { s with mutables := mapSet s.mutables x v1 } e2 = .ok v2 →
      execBlock h (fuel + 2) lines idx s =
        execBlock h fuel lines (idx + 2)
          { s with mutables := mapSet (mapSet s.mutables x v1) x v2 } ∧
      evalExpr h { s with mutables := mapSet (mapSet s.mutables x v1) x v2 } x = .ok v2 ∧
      (∀ y, y ≠ x →
        mapGet (mapSet (mapSet s.mutables x v1) x v2) y = mapGet s.mutables y) ∧
      ({ s with mutables := mapSet (mapSet s.mutables x v1) x v2 } : State).constants =
        s.constants := by
  obtain ⟨hl1, hd1⟩ := drop_eq_cons hd
  have hstep1 := execBlock_let h (fuel + 1) lines idx s l1 x e1 more1 v1 hl1 ht1 hfn hv1
  refine ⟨⟨hstep1, ?_, ?_, rfl⟩, ?_⟩
  · exact evalExpr_var h _ x v1 hx (mapGet_mapSet_same _ _ _)
  · intro y hy
    exact mapGet_mapSet_other _ _ _ _ (Ne.symm hy)
  · intro l2 e2 more2 rest2 v2 hrest ht2 hv2
    subst hrest
    obtain ⟨hl2, -⟩ := drop_eq_cons hd1
    refine ⟨?_, ?_, ?_, rfl⟩
    · rw [hstep1]
      exact execBlock_let h fuel lines (idx + 1) _ l2 x e2 more2 v2 hl2 ht2 hfn hv2
    · exact evalExpr_var h _ x v2 hx (mapGet_mapSet_same _ _ _)
    · intro y hy
      rw [mapGet_mapSet_other _ _ _ _ (Ne.symm hy), mapGet_mapSet_other _ _ _ _ (Ne.symm hy)]

/-- Claim C13 at `letProg` in a state with a constant `x` and a variable `k`:
after `let x = 5` the name `x` evaluates to 5, after `let x = "five"` to the
string `five`; `k` and the constant scope stay as they were. -/
theorem let_binds_and_rebinds_witness :
    evalExpr demoHost
        { State.init [] with
          mutables := mapSet [("k", Value.int 1)] "x" (.int 5), constants := [("x", .int 0)] }
        "x" = .ok (.int 5) ∧
    execBlock demoHost (3 + 2) letProg 0
        { State.init [] with mutables := [("k", .int 1)], constants := [("x", .int 0)] } =
      execBlock demoHost 3 letProg (0 + 2)
        { State.init [] with
          mutables := mapSet (mapSet [("k", Value.int 1)] "x" (.int 5)) "x" (.str "five"),
          constants := [("x", .int 0)] } ∧
    evalExpr demoHost
        { State.init [] with
          mutables := mapSet (mapSet [("k", Value.int 1)] "x" (.int 5)) "x" (.str "five"),
          constants := [("x", .int 0)] }
        "x" = .ok (.str "five") ∧
    execBlock demoHost (3 + 2) letProg 0
        { State.init [] with mutables := [("k", .int 1)], constants := [("x", .int 0)] } =
      .ok (3, { State.init [] with
                mutables := [("k", .int 1), ("x", .str "five")],
                constants := [("x", .int 0)], out := ["five\n"] }) :=
  have hw := let_binds_and_rebinds demoHost 3 letProg 0
    { State.init [] with mutables := [("k", .int 1)], constants := [("x", .int 0)] }
    "let x = 5" "x" "5" [] ["let x = \"five\"", "print \"$\x7bx\x7d\""] (.int 5)
    (by decide) (by decide) (by decide) (by decide) (by decide)
  have h2 := hw.2 "let x = \"five\"" "\"five\"" [] ["print \"$\x7bx\x7d\""] (.str "five")
    rfl (by decide) (by decide)
  ⟨hw.1.2.1, h2.1, h2.2.1, by decide⟩

/-! ## C14: `interpolate` -/

/-- Text without placeholder comes out of the scan unchanged. -/
theorem interpGo_noPlaceholder (h : Host) (s : State) (t : List Char)
    (ht : noPlaceholder t = true) : interpGo h s 0 t = t := by
  induction t with
  | nil => rfl
  | cons c cs ih =>
    simp only [noPlaceholder, Bool.and_eq_true, Option.isNone_iff_eq_none] at ht
    rw [interpGo, ht.1, ih ht.2]

/-- The scan drops the rest of a match it has replaced. -/
theorem interpGo_skip (h : Host) (s : State) (u rest : List Char) :
    interpGo h s u.length (u ++ rest) = interpGo h s 0 rest := by
  induction u with
  | nil => rfl
  | cons c cs ih =>
    cases rest with
    | nil => simpa [interpGo] using ih
    | cons r rs => simpa [interpGo] using ih

theorem dropWhile_head_append {p : Char → Bool} {x : Char} (r t : List Char) (y : Char)
    (hx : p x = false) (hxy : x ≠ y)
    (hr : ((r ++ x :: t).dropWhile p).head? = some y) :
    (r.dropWhile p).head? = some y := by
  induction r with
  | nil => simp [List.dropWhile, hx] at hr; exact absurd hr hxy
  | cons a as ih =>
    by_cases ha : p a = true
    · simp only [List.cons_append, List.dropWhile, ha] at hr ⊢
      exact ih hr
    · have ha' : p a = false := by simpa using ha
      simp only [List.cons_append, List.dropWhile, ha'] at hr ⊢
      exact hr

/-- A nonempty text at whose head the expression does not match still does
not match there when a text that starts with a dollar sign is put behind it. -/
theorem placeholderAt_append_dollar (u t : List Char) (hu : u ≠ [])
    (hn : placeholderAt u = none) : placeholderAt (u ++ '$' :: t) = none := by
  match u, hu, hn with
  | [a], _, _ =>
    cases t with
    | nil => rfl
    | cons x xs => simp [placeholderAt]
  | [a, b], _, _ => simp [placeholderAt, isIdentStart]
  | a :: b :: c :: r, _, hn =>
    simp only [List.cons_append, placeholderAt] at hn ⊢
    split at hn
    · cases hn
    · rename_i hcond
      rw [if_neg]
      rintro ⟨h1, h2, h3, h4⟩
      exact hcond ⟨h1, h2, h3,
        dropWhile_head_append r t '\x7d' (by decide) (by decide) h4⟩

/-- The scan copies a text without placeholder that stands in front of a
dollar sign. -/
theorem interpGo_prefix (h : Host) (s : State) (pre t : List Char)
    (hp : noPlaceholder pre = true) :
    interpGo h s 0 (pre ++ '$' :: t) = pre ++ interpGo h s 0 ('$' :: t) := by
  induction pre with
  | nil => rfl
  | cons c cs ih =>
    simp only [noPlaceholder, Bool.and_eq_true, Option.isNone_iff_eq_none] at hp
    have hnone := placeholderAt_append_dollar (c :: cs) t (by simp) hp.1
    rw [List.cons_append] at hnone ⊢
    rw [interpGo, hnone, ih hp.2]
    rfl

theorem dropWhile_all_append {p : Char → Bool} (cs : List Char) (x : Char) (t : List Char)
    (hcs : cs.all p = true) (hx : p x = false) :
    (cs ++ x :: t).dropWhile p = x :: t ∧ (cs ++ x :: t).takeWhile p = cs := by
  induction cs with
  | nil => simp [List.dropWhile, List.takeWhile, hx]
  | cons a as ih =>
    simp only [List.all_cons, Bool.and_eq_true] at hcs
    simp only [List.cons_append, List.dropWhile, List.takeWhile, hcs.1]
    exact ⟨(ih hcs.2).1, congrArg (a :: ·) (ih hcs.2).2⟩

/-- At the head of a placeholder for an identifier the expression matches and
gives the identifier. -/
theorem placeholderAt_placeholder (name suf : List Char) (hn : isIdent name = true) :
    ∃ c cs, name = c :: cs ∧
      placeholderAt (placeholder name ++ suf) = some name := by
  cases name with
  | nil => simp [isIdent] at hn
  | cons c cs =>
    simp only [isIdent, Bool.and_eq_true] at hn
    refine ⟨c, cs, rfl, ?_⟩
    obtain ⟨hd, ht⟩ := dropWhile_all_append (p := isIdentChar) cs '\x7d' suf hn.2 (by decide)
    have hshape : placeholder (c :: cs) ++ suf = '$' :: '\x7b' :: c :: (cs ++ '\x7d' :: suf) := by
      simp [placeholder]
    rw [hshape]
    simp only [placeholderAt, hn.1, hd, ht, List.head?_cons, and_self, if_true]

/-- The value of `interpolate` on a text with exactly one placeholder. -/
theorem interpolate_one (h : Host) (s : State) (pre name suf : List Char)
    (hn : isIdent name = true) (hpre : noPlaceholder pre = true)
    (hsuf : noPlaceholder suf = true) :
    interpolate h s (pre ++ placeholder name ++ suf) =
      pre ++ lookupText h s (String.mk name) ++ suf := by
  obtain ⟨c, cs, hname, hmatch⟩ := placeholderAt_placeholder name suf hn
  have hshape : pre ++ placeholder name ++ suf =
      pre ++ '$' :: ('\x7b' :: (name ++ ['\x7d']) ++ suf) := by
    simp [placeholder]
  have hph : placeholder name ++ suf = '$' :: ('\x7b' :: (name ++ ['\x7d']) ++ suf) := by
    simp [placeholder]
  unfold interpolate
  rw [hshape, interpGo_prefix h s pre _ hpre, interpGo]
  rw [← hph, hmatch]
  simp only []
  have hlen : name.length + 2 = ('\x7b' :: (name ++ ['\x7d'])).length := by simp
  rw [hlen, interpGo_skip, interpGo_noPlaceholder h s suf hsuf]
  simp

/-- Claim C14: for an identifier `name` and texts `pre` and `suf` without
placeholder, `interpolate` on `pre`, the placeholder for `name` and `suf` gives
`pre`, the printed value and `suf`: the value of `name` in the mutable scope
if it is bound there, else its value in the constant scope, else nothing. The
inserted text is whatever the value prints as, placeholders in it are not
expanded. Text without placeholder is returned as it is. -/
theorem interpolate_single_placeholder (h : Host) (s : State) (pre name suf : List Char)
    (hn : isIdent name = true) (hpre : noPlaceholder pre = true)
    (hsuf : noPlaceholder suf = true) :
    (∀ v, mapGet s.mutables (String.mk name) = some v →
      interpolate h s (pre ++ placeholder name ++ suf) = pre ++ (sprint h v).data ++ suf) ∧
    (∀ v, mapGet s.mutables (String.mk name) = none →
      mapGet s.constants (String.mk name) = some v →
      interpolate h s (pre ++ placeholder name ++ suf) = pre ++ (sprint h v).data ++ suf) ∧
    (mapGet s.mutables (String.mk name) = none →
      mapGet s.constants (String.mk name) = none →
      interpolate h s (pre ++ placeholder name ++ suf) = pre ++ suf) ∧
    interpolate h s pre = pre := by
  have hone := interpolate_one h s pre name suf hn hpre hsuf
  refine ⟨?_, ?_, ?_, interpGo_noPlaceholder h s pre hpre⟩
  · intro v hv
    rw [hone]; simp [lookupText, hv]
  · intro v hm hv
    rw [hone]; simp [lookupText, hm, hv]
  · intro hm hc
    rw [hone]; simp [lookupText, hm, hc]

/-- Claim C14 at `worldState`: `Hello`, the placeholder for `name` and `!`
give `Hello World!`; `both` is read from the mutable scope although a constant
of that name exists, and its value, itself the text of a placeholder, is
inserted as it is; `pi` is read from the constants; an unbound name gives
nothing. -/
theorem interpolate_single_placeholder_witness :
    interpolate demoHost worldState ("Hello ".data ++ placeholder "name".data ++ "!".data) =
      "Hello ".data ++ (sprint demoHost (.str "World")).data ++ "!".data ∧
    interpolate demoHost worldState "Hello $\x7bname\x7d!".data = "Hello World!".data ∧
    interpolate demoHost worldState "a $\x7bboth\x7d b".data = "a $\x7bname\x7d b".data ∧
    interpolate demoHost worldState "$\x7bpi\x7d".data = "3".data ∧
    interpolate demoHost worldState "<$\x7bzz\x7d>".data = "<>".data :=
  ⟨(interpolate_single_placeholder demoHost worldState "Hello ".data "name".data "!".data
      (by decide) (by decide) (by decide)).1 (.str "World") (by decide),
   by decide, by decide, by decide, by decide⟩

/-! ## C15: a call and the constant scope -/

/-- Claim C15 as stated fails: the body of `f` executes `const k = 9`; before
the call the constant scope is empty, after the call it binds `k` to 9, and
the caller reads 9 for `k`. Only `mutables` is copied and put back. -/
theorem const_in_body_survives_call :
    constCallState.constants = [] ∧
    execLine demoHost (execBlock demoHost 3) 3 constCallProg 3 ["f"] constCallState =
      .ok (4, { constCallState with constants := [("k", .int 9)] }) ∧
    (execute demoHost 4 constCallProg (State.init [])).bind
        (fun s => evalExpr demoHost s "k") = .ok (.int 9) := by
  decide

/-- Claim C15, amended: a call isolates the mutable scope only. For a call
line of a registered function whose name is no keyword and has no underscore,
when the call returns the arguments were evaluated, the parameters bound and
the body run to some final state; the state after the call has the mutable
scope of before the call, and the constant scope, the function registry and
the output of the final state of the body. A `const` executed in the body
therefore stays visible to the caller. -/
theorem call_keeps_body_constants (h : Host) (fuel : Nat) (lines : List String) (idx : Nat)
    (f : String) (fn : Function) (args : List String) (s : State) (r : Nat × State)
    (hf : callable f = true) (hreg : mapGet s.functions f = some fn)
    (hr : execLine h (execBlock h fuel) fuel lines idx (f :: args) s = .ok r) :
    ∃ vs m rb, evalArgs h s args = .ok vs ∧ bindParams fn.params vs s.mutables = .ok m ∧
      execBlock h fuel fn.body 0 { s with mutables := m } = .ok rb ∧
      r.2.mutables = s.mutables ∧ r.2.constants = rb.2.constants ∧
      r.2.functions = rb.2.functions ∧ r.2.out = rb.2.out := by
  rw [execLine_callable h _ fuel lines idx f args s hf] at hr
  obtain ⟨s1, hs1, hr⟩ := Res.bind_eq_ok hr
  cases hr
  simp only [secCall, hreg] at hs1
  obtain ⟨vs, hvs, hs1⟩ := Res.bind_eq_ok hs1
  obtain ⟨m, hm, hs1⟩ := Res.bind_eq_ok hs1
  obtain ⟨rb, hrb, hs1⟩ := Res.bind_eq_ok hs1
  cases hs1
  exact ⟨vs, m, rb, hvs, hm, hrb, rfl, rfl, rfl, rfl⟩

/-- Claim C15, amended, at `constCallProg`: the body leaves `k = 9` in the
constant scope, and that is the constant scope after the call. -/
theorem call_keeps_body_constants_witness :
    execBlock demoHost 3 ["const k = 9"] 0 constCallState =
      .ok (1, { constCallState with constants := [("k", .int 9)] }) ∧
    ∃ vs m rb, evalArgs demoHost constCallState [] = .ok vs ∧
      bindParams [] vs constCallState.mutables = .ok m ∧
      execBlock demoHost 3 ["const k = 9"] 0 { constCallState with mutables := m } = .ok rb ∧
      (4, ({ constCallState with constants := [("k", .int 9)] } : State)).2.mutables =
        constCallState.mutables ∧
      (4, ({ constCallState with constants := [("k", .int 9)] } : State)).2.constants =
        rb.2.constants ∧
      (4, ({ constCallState with constants := [("k", .int 9)] } : State)).2.functions =
        rb.2.functions ∧
      (4, ({ constCallState with constants := [("k", .int 9)] } : State)).2.out = rb.2.out :=
  ⟨by decide,
   call_keeps_body_constants demoHost 3 constCallProg 3 "f" ⟨[], ["const k = 9"]⟩ []
    constCallState (4, { constCallState with constants := [("k", .int 9)] })
    (by decide) (by decide) (by decide)⟩

/-! ## C16: the instance name of `new` -/

/-- Claim C16, evaluated on the code: the instance name is `obj`, the class
name and the number of entries of the mutable scope, and nothing checks that
it is free. In `newClashProg` the variable `objC2` holds 5 before `new C` and
the class name `C` after it. In `newInstanceClashProg` the instance `objA12`
of class `A1` is live before `new A` and is an instance of `A` after it. -/
theorem new_overwrites_existing_binding :
    (∀ k : Nat, (execute demoHost (4 + k) (newClashProg.take 3) (State.init [])).bind
        (fun s => .ok (mapGet s.mutables "objC2")) = .ok (some (.int 5))) ∧
    (∀ k : Nat, (execute demoHost (5 + k) newClashProg (State.init [])).bind
        (fun s => .ok (mapGet s.mutables "objC2", mapGet s.mutables "last_instance")) =
      .ok (some (.str "C"), some (.str "objC2"))) ∧
    (∀ k : Nat, (execute demoHost (14 + k) (newInstanceClashProg.take 13) (State.init [])).bind
        (fun s => .ok (mapGet s.mutables "objA12")) = .ok (some (.str "A1"))) ∧
    (∀ k : Nat, (execute demoHost (15 + k) newInstanceClashProg (State.init [])).bind
        (fun s => .ok (mapGet s.mutables "objA12", mapGet s.mutables "last_instance")) =
      .ok (some (.str "A"), some (.str "objA12"))) := by
  refine ⟨fun k => ?_, fun k => ?_, fun k => ?_, fun k => ?_⟩
  · rw [execute_stable demoHost 4 _ _ (by decide) k]; decide
  · rw [execute_stable demoHost 5 _ _ (by decide) k]; decide
  · rw [execute_stable demoHost 14 _ _ (by decide) k]; decide
  · rw [execute_stable demoHost 15 _ _ (by decide) k]; decide

/-! ## C17: a function body with a nested block -/

/-- Claim C17, evaluated on the code: the body collection stops at the first
line that starts with `end`, which is the `end` of the nested `if`. The
function is registered with the right parameters but with the body cut before
that `end`; the line after the nested block is executed at definition time;
and the `end` of the definition then ends the walk, so the line after the
definition is never reached. -/
theorem func_body_cut_at_nested_end :
    (∀ k : Nat, execute demoHost (4 + k) nestedFuncProg (State.init []) =
      .ok { State.init [] with
            functions := [("f", ⟨["a", "b"], ["if 1", "print \"in\""]⟩)],
            out := ["tail\n"] }) ∧
    collectBody (nestedFuncProg.drop 1) 1 [] = .ok (3, ["if 1", "print \"in\""]) := by
  refine ⟨fun k => ?_, by decide⟩
  rw [execute_stable demoHost 4 _ _ (by decide) k]; decide

/-! ## C18: a loop body with a nested block -/

/-- Claim C18, evaluated on the code: after the passes the skip loop stops at
the first line that starts with `end`, the `end` of the nested `if`. The
cursor lands inside the body: the line after the nested block is executed once
more (`b` is printed one time too many), and the loop's own `end` then ends the
walk, so the line after the loop is never executed. The same for all four
kinds of loop. -/
theorem loop_skip_stops_at_nested_end :
    (∀ k : Nat, execute demoHost (6 + k) nestedForProg (State.init []) =
      .ok { State.init [] with
            mutables := [("i", .int 2)], out := ["a\n", "b\n", "a\n", "b\n", "b\n"] }) ∧
    (∀ k : Nat, execute demoHost (6 + k) nestedRepeatProg (State.init []) =
      .ok { State.init [] with out := ["a\n", "b\n", "a\n", "b\n", "b\n"] }) ∧
    (∀ k : Nat, execute demoHost (7 + k) nestedWhileProg (State.init []) =
      .ok { State.init [] with mutables := [("c", .int 0)], out := ["b\n", "b\n"] }) ∧
    (∀ k : Nat, execute demoHost (6 + k) nestedUntilProg (State.init []) =
      .ok { State.init [] with out := ["a\n", "b\n", "b\n"] }) := by
  refine ⟨fun k => ?_, fun k => ?_, fun k => ?_, fun k => ?_⟩
  · rw [execute_stable demoHost 6 _ _ (by decide) k]; decide
  · rw [execute_stable demoHost 6 _ _ (by decide) k]; decide
  · rw [execute_stable demoHost 7 _ _ (by decide) k]; decide
  · rw [execute_stable demoHost 6 _ _ (by decide) k]; decide

/-! ## C19: blank lines in block bodies -/

/-- Claim C19, evaluated on the code: at top level an empty line is passed
over, but the loops that look for `end` (the skip loop of the loop
statements, the body collection of `func`, the method scan of `class`) index
the first token of every line, and a line without tokens makes them panic.
Each program runs without the blank line and panics with it. -/
theorem blank_line_in_body_panics :
    (∀ k : Nat, execute demoHost (4 + k) topBlankProg (State.init []) =
      .ok { State.init [] with out := ["a\n", "z\n"] }) ∧
    (∀ k : Nat, execute demoHost (4 + k) loopProg (State.init []) =
        .ok { State.init [] with mutables := [("i", .int 1)], out := ["a\n", "z\n"] } ∧
      execute demoHost (4 + k) loopBlankProg (State.init []) = .panic) ∧
    (∀ k : Nat, execute demoHost (4 + k) funcProg (State.init []) =
        .ok { State.init [] with
              functions := [("f", ⟨[], ["print \"a\""]⟩)], out := ["a\n"] } ∧
      execute demoHost (4 + k) funcBlankProg (State.init []) = .panic) ∧
    (∀ k : Nat, execute demoHost (4 + k) classProg (State.init []) =
        .ok { State.init [] with
              mutables := [("__methods_C", .methods [("hi", ⟨[], ["print \"a\""]⟩)])],
              functions := [("__class_C", ⟨[], []⟩)], out := ["z\n"] } ∧
      execute demoHost (4 + k) classBlankProg (State.init []) = .panic) := by
  refine ⟨fun k => ?_, fun k => ⟨?_, ?_⟩, fun k => ⟨?_, ?_⟩, fun k => ⟨?_, ?_⟩⟩
  all_goals (rw [execute_stable demoHost 4 _ _ (by decide) k]; decide)

end Falcon
